import Mathlib

/-!
Verification development for the BibAIFilter batch scoring pipeline.

Shallow embedding of:
* `AIProcessor._parse_result`  (src/utils/ai_processor.py, lines 1446-1560)
* the provider retry loops `_get_score_openai`, `_get_score_google`,
  `_get_score_deepseek`, `_get_score_with_prompt_openai_reasoning`
* `AIProcessor.get_relevance_score` (dispatch plus catch-all handler)
* `ProcessingThread.run` (src/ui/worker_thread.py), the batch orchestrator.

Python strings are modelled as `List Char` (with `String` wrappers at the
boundary); Python floats are modelled exactly on `ℚ`, with `float`/`int`
overflow (`OverflowError` past the IEEE double range) modelled by the
threshold `2 ^ 1024`.  Whitespace is the ASCII whitespace set (Python's
`str.strip` also strips some Unicode spaces; none occur in the texts the
claims concern).
-/

/-- ASCII whitespace, as stripped by Python `str.strip()`. -/
def pyIsSpace (c : Char) : Bool :=
  c = ' ' || c = '\t' || c = '\n' || c = '\r' || c = '\x0b' || c = '\x0c'

/-- Python `str.strip()`: drop leading and trailing whitespace. -/
def pyStrip (cs : List Char) : List Char :=
  ((cs.dropWhile pyIsSpace).reverse.dropWhile pyIsSpace).reverse

/-- Python `str.rstrip('.')`: drop trailing dots. -/
def rstripDot (cs : List Char) : List Char :=
  (cs.reverse.dropWhile (fun c => c = '.')).reverse

/-- Python `str.lower()` (ASCII letters; the keyword table is ASCII). -/
def pyLower (cs : List Char) : List Char :=
  cs.map Char.toLower

/-- List-prefix test, `Bool` valued. -/
def isPrefixL : List Char → List Char → Bool
  | [], _ => true
  | _ :: _, [] => false
  | p :: ps, c :: cs => p = c && isPrefixL ps cs

/-- Python `pat in s`: substring occurrence of `pat` in `cs`. -/
def containsSub (pat : List Char) : List Char → Bool
  | [] => isPrefixL pat []
  | c :: cs => isPrefixL pat (c :: cs) || containsSub pat cs

/-- The suffix after the last non-overlapping occurrence of `p :: ps`,
scanning left to right: Python `s.split(sep)[-1]` (the whole string when
the separator is absent).  Fuelled structural recursion; every step
consumes at least one character, so `cs.length` fuel is exact. -/
def afterLastCore (p : Char) (ps : List Char) : Nat → List Char → List Char
  | 0, cs => cs
  | _ + 1, [] => []
  | fuel + 1, c :: cs =>
      if isPrefixL (p :: ps) (c :: cs) then
        afterLastCore p ps fuel (cs.drop ps.length)
      else if containsSub (p :: ps) cs then
        afterLastCore p ps fuel cs
      else c :: cs

/-- Python `s.split(pat)[-1]` for a nonempty pattern. -/
def afterLastL (pat cs : List Char) : List Char :=
  match pat with
  | [] => cs
  | p :: ps => afterLastCore p ps cs.length cs

/-- First maximal run of ASCII digits: Python `re.findall(r'\d+', s)[0]`.
(Python's `\d` also matches non-ASCII decimal digits; the responses the
parser sees are ASCII.) -/
def firstDigitRun : List Char → Option (List Char)
  | [] => none
  | c :: cs =>
      if c.isDigit then some (c :: cs.takeWhile Char.isDigit)
      else firstDigitRun cs

/-- Numeric value of a digit run. -/
def digitsToNat (cs : List Char) : Nat :=
  cs.foldl (fun n c => 10 * n + (c.toNat - 48)) 0

/-- Digit groups possibly separated by single underscores, as accepted by
Python's `float()` literal grammar (`1_000`).  Returns the value, the
number of digits consumed, and the rest; stops (leaving the offending
characters in the rest) on a malformed underscore. -/
def digitsCore (v k : Nat) : List Char → Nat × Nat × List Char
  | [] => (v, k, [])
  | c :: cs =>
      if c.isDigit then digitsCore (10 * v + (c.toNat - 48)) (k + 1) cs
      else if c = '_' then
        match cs with
        | d :: _ => if d.isDigit then digitsCore v k cs else (v, k, c :: cs)
        | [] => (v, k, c :: cs)
      else (v, k, c :: cs)

/-- One or more digits (with optional group underscores); `none` when the
input does not start with a digit. -/
def parseUDigits (cs : List Char) : Option (Nat × Nat × List Char) :=
  match cs with
  | c :: _ => if c.isDigit then some (digitsCore 0 0 cs) else none
  | [] => none

/-- Optional sign. -/
def parseSign (cs : List Char) : Bool × List Char :=
  match cs with
  | '+' :: r => (false, r)
  | '-' :: r => (true, r)
  | r => (false, r)

/-- Optional exponent part `(e|E)[+-]?digits`; `none` when absent or
malformed (a malformed exponent leaves unconsumed characters, which makes
the whole literal invalid below). -/
def parseExpPart (cs : List Char) : Option (Int × List Char) :=
  match cs with
  | 'e' :: r | 'E' :: r =>
      let (eneg, r1) := parseSign r
      match parseUDigits r1 with
      | some (ev, _, r2) => some ((if eneg then -(ev : Int) else (ev : Int)), r2)
      | none => none
  | _ => none

/-- Python `float(s)` on a stripped string, modelled exactly on `ℚ`:
grammar `[+-]? ( D [. D?] | . D ) [ (e|E) [+-]? D ]` with underscore
digit groups.  (`inf`/`nan` literals are excluded: on them the source's
`int(float(s))` raises and the overall result coincides with the fallback
path modelled below.  IEEE rounding of the decimal literal to a double is
modelled as exact; the downstream truncation and clamping to [1,7] are
insensitive to it except within one ulp of an integer boundary.) -/
def parseFloatQ (cs : List Char) : Option ℚ :=
  let (neg, cs1) := parseSign cs
  -- mantissa digits: integer part `i`, fraction part `f` over `k` digits
  let mant : Option (Nat × Nat × Nat × List Char) :=
    match parseUDigits cs1 with
    | some (i, _, r1) =>
        match r1 with
        | '.' :: r2 =>
            match parseUDigits r2 with
            | some (f, k, r3) => some (i, f, k, r3)
            | none => some (i, 0, 0, r2)
        | _ => some (i, 0, 0, r1)
    | none =>
        match cs1 with
        | '.' :: r2 =>
            match parseUDigits r2 with
            | some (f, k, r3) => some (0, f, k, r3)
            | none => none
        | _ => none
  match mant with
  | none => none
  | some (i, f, k, rest) =>
      -- value = ±(i·10^k + f) · 10^e / 10^k, built with `mkRat` so that
      -- the rational is kernel-computable
      let value : Int → ℚ := fun e =>
        let base : Int := ((i * 10 ^ k + f : Nat) : Int) * ((10 ^ e.toNat : Nat) : Int)
        mkRat (if neg then -base else base) (10 ^ k * 10 ^ (-e).toNat)
      match parseExpPart rest with
      | some (e, rest2) => if rest2 = [] then some (value e) else none
      | none => if rest = [] then some (value 0) else none

/-- Truncation toward zero, Python `int(float)` on a finite value;
computed on the reduced numerator and denominator (see
`truncQ_eq_floor_ceil` below for the floor/ceiling characterization). -/
def truncQ (q : ℚ) : Int :=
  if 0 ≤ q.num then ((q.num.natAbs / q.den : Nat) : Int)
  else -((q.num.natAbs / q.den : Nat) : Int)

/-- `2 ^ 1024` (the numeral, so that kernel evaluation is cheap). -/
def pow2of1024 : Nat :=
  179769313486231590772930519078902473361797697894230657273430081157732675805500963132708477322407536021120113879871393357658789768814416622492847430639474124377767893424865485276302219601246094119453082952085005768838150682342462881473913110540827237163350510684586298239947245938479716304835356329624224137216

/-- `2 ^ 1024 ≤ |q|`: the value is past the IEEE double range, so
`int(float(s))` raises `OverflowError` (caught by the outer handler). -/
def qOverflow (q : ℚ) : Bool :=
  pow2of1024 * q.den ≤ q.num.natAbs

/-- `max(1, min(7, score))` from the source, landing in `ℕ`. -/
def clamp17 (n : Int) : Nat :=
  (max 1 (min 7 n)).toNat

/-! ### Minimal JSON model for the `json.loads` fallback

The JSON strategy of `_parse_result` runs only when the text contains no
digit (any digit would have been captured by the regex strategy), so JSON
number literals cannot occur there and are omitted from the grammar. -/

/-- JSON values without numbers. -/
inductive JVal where
  | jstr (cs : List Char)
  | jbool (b : Bool)
  | jnull
  | jarr (xs : List JVal)
  | jobj (kvs : List (List Char × JVal))

/-- JSON whitespace. -/
def jws (cs : List Char) : List Char :=
  cs.dropWhile (fun c => c = ' ' || c = '\t' || c = '\n' || c = '\r')

/-- Hex digit test. -/
def isHexC (c : Char) : Bool :=
  c.isDigit || ('a' ≤ c && c ≤ 'f') || ('A' ≤ c && c ≤ 'F')

/-- Hex digit value. -/
def hexVal (c : Char) : Nat :=
  if c.isDigit then c.toNat - 48
  else if 'a' ≤ c ∧ c ≤ 'f' then c.toNat - 87
  else c.toNat - 55

/-- Decoded character of a single-character JSON escape. -/
def escChar (e : Char) : Option Char :=
  if e = '"' then some '"'
  else if e = '\\' then some '\\'
  else if e = '/' then some '/'
  else if e = 'b' then some '\x08'
  else if e = 'f' then some '\x0c'
  else if e = 'n' then some '\n'
  else if e = 'r' then some '\r'
  else if e = 't' then some '\t'
  else none

/-- JSON string body after the opening quote: returns the decoded content
and the rest after the closing quote.  Fuelled structural recursion;
`cs.length` fuel is ample (each step consumes at least one character). -/
def jparseStr : Nat → List Char → Option (List Char × List Char)
  | 0, _ => none
  | _ + 1, [] => none
  | fuel + 1, c :: r =>
      if c = '"' then some ([], r)
      else if c = '\\' then
        match r with
        | [] => none
        | e :: r2 =>
            if e = 'u' then
              match r2 with
              | a :: b :: c2 :: d :: r3 =>
                  if isHexC a && isHexC b && isHexC c2 && isHexC d then
                    (jparseStr fuel r3).map (fun sr =>
                      (Char.ofNat (((hexVal a * 16 + hexVal b) * 16 + hexVal c2) * 16 + hexVal d) :: sr.1, sr.2))
                  else none
              | _ => none
            else
              match escChar e with
              | some ec => (jparseStr fuel r2).map (fun sr => (ec :: sr.1, sr.2))
              | none => none
      else (jparseStr fuel r).map (fun sr => (c :: sr.1, sr.2))

/-- The three JSON parsers (value; bracket-terminated item list;
brace-terminated member list) built together by structural recursion on
fuel, so that evaluation reduces in the kernel.  Every recursion level
consumes input, so `2 * length + 4` fuel at top level is ample. -/
def jparsers : Nat →
    (List Char → Option (JVal × List Char)) ×
    (List Char → Option (List JVal × List Char)) ×
    (List Char → Option (List (List Char × JVal) × List Char))
  | 0 => (fun _ => none, fun _ => none, fun _ => none)
  | fuel + 1 =>
      let pv := (jparsers fuel).1
      let pi := (jparsers fuel).2.1
      let pm := (jparsers fuel).2.2
      ( fun cs =>
          match jws cs with
          | 't' :: r =>
              if isPrefixL ['r', 'u', 'e'] r then some (.jbool true, r.drop 3) else none
          | 'f' :: r =>
              if isPrefixL ['a', 'l', 's', 'e'] r then some (.jbool false, r.drop 4) else none
          | 'n' :: r =>
              if isPrefixL ['u', 'l', 'l'] r then some (.jnull, r.drop 3) else none
          | '"' :: r => (jparseStr (r.length + 1) r).map (fun sr => (.jstr sr.1, sr.2))
          | '[' :: r =>
              (match jws r with
               | ']' :: r2 => some (.jarr [], r2)
               | _ => (pi r).map (fun xr => (.jarr xr.1, xr.2)))
          | '\x7b' :: r =>
              (match jws r with
               | '\x7d' :: r2 => some (.jobj [], r2)
               | _ => (pm r).map (fun kr => (.jobj kr.1, kr.2)))
          | _ => none
      , fun cs =>
          match pv cs with
          | none => none
          | some (v, rest) =>
              match jws rest with
              | ',' :: r2 => (pi r2).map (fun xr => (v :: xr.1, xr.2))
              | ']' :: r2 => some ([v], r2)
              | _ => none
      , fun cs =>
          match jws cs with
          | '"' :: r =>
              match jparseStr (r.length + 1) r with
              | none => none
              | some (k, rest) =>
                  match jws rest with
                  | ':' :: r2 =>
                      (match pv r2 with
                       | none => none
                       | some (v, rest2) =>
                           match jws rest2 with
                           | ',' :: r3 => (pm r3).map (fun kr => ((k, v) :: kr.1, kr.2))
                           | '\x7d' :: r3 => some ([(k, v)], r3)
                           | _ => none)
                  | _ => none
          | _ => none )

/-- Parse a JSON value. -/
def jparseVal (fuel : Nat) (cs : List Char) : Option (JVal × List Char) :=
  (jparsers fuel).1 cs

/-- Python `json.loads` on the digit-free texts that reach this strategy. -/
def jsonLoads (cs : List Char) : Option JVal :=
  match jparseVal (2 * cs.length + 4) cs with
  | some (v, rest) => if jws rest = [] then some v else none
  | none => none

/-- Python dict lookup: duplicate JSON keys keep the last occurrence. -/
def lookupLast (k : List Char) : List (List Char × JVal) → Option JVal
  | [] => none
  | (k', v) :: rest =>
      match lookupLast k rest with
      | some r => some r
      | none => if k' = k then some v else none

/-- The JSON strategy of `_parse_result` (source lines 1514-1526):
`none` models `json.JSONDecodeError` (fall through to the keyword scan);
`some r` models a return.  On a parsed object, `int(float(result.get("score", 4)))`:
booleans convert to 0/1 and clamp to 1; `null`, strings (digit-free, so at
most `inf`/`nan`), lists and dicts make `float`/`int` raise, which the outer
handler converts to 4; a missing key defaults to 4.  A parsed non-object
makes `.get` raise `AttributeError`, also 4 via the outer handler. -/
def jsonScoreBranch (cs : List Char) : Option Nat :=
  match jsonLoads cs with
  | none => none
  | some (.jobj kvs) =>
      match lookupLast ['s', 'c', 'o', 'r', 'e'] kvs with
      | some (.jbool _) => some 1
      | some _ => some 4
      | none => some 4
  | some _ => some 4

/-- The keyword table of `_parse_result` (source lines 1532-1540). -/
def scoreKeywords : List (List Char × Nat) :=
  [("extremely relevant".toList, 7),
   ("very relevant".toList, 6),
   ("moderately relevant".toList, 5),
   ("somewhat relevant".toList, 4),
   ("slightly relevant".toList, 3),
   ("very slightly relevant".toList, 2),
   ("not relevant".toList, 1)]

/-- The keyword strategy: highest value among matching phrases, else the
default 4 (source lines 1542-1555). -/
def keywordScore (lowerCs : List Char) : Nat :=
  let ms := scoreKeywords.filterMap
    (fun kv => if containsSub kv.1 lowerCs then some kv.2 else none)
  match ms with
  | [] => 4
  | _ => ms.foldl Nat.max 0

/-- Does the Google thinking-output cleanup apply (source line 1465)? -/
def googleThinkingCfg (provider model : String) : Bool :=
  provider = "google" &&
    (containsSub "thinking".toList model.toList ||
     isPrefixL "gemini-2".toList model.toList)

/-- Strategies 2-5 of `_parse_result` on the stripped, unwrapped text
(source lines 1481-1555): whole-string number (truncate toward zero,
clamp; overflow past the double range returns 4 via the outer handler);
first digit run (clamp, same overflow rule); JSON object with a "score"
field; keyword scan with default 4. -/
def scoreOfText (t : List Char) : Nat :=
  match parseFloatQ t with
  | some q => if qOverflow q then 4 else clamp17 (truncQ q)
  | none =>
      match firstDigitRun t with
      | some ds =>
          if pow2of1024 ≤ digitsToNat ds then 4 else clamp17 (digitsToNat ds : Int)
      | none =>
          match jsonScoreBranch t with
          | some r => r
          | none => keywordScore (pyLower t)

/-- Strategy 1a of `_parse_result` (source lines 1459-1462): keep only
the tail after the last "My answer is:". -/
def unwrapAnswer (cs : List Char) : List Char :=
  if containsSub "My answer is:".toList cs then
    pyStrip (afterLastL "My answer is:".toList cs)
  else cs

/-- Strategy 1b (source lines 1464-1479): Google thinking-output cleanup,
applied only under `googleThinkingCfg`. -/
def googleClean (cs : List Char) : List Char :=
  if containsSub "I need to analyze".toList cs ||
     containsSub "Let me analyze".toList cs then
    if containsSub "Final answer:".toList cs then
      pyStrip (afterLastL "Final answer:".toList cs)
    else if containsSub "Therefore, the score is".toList cs then
      pyStrip (rstripDot (pyStrip (afterLastL "Therefore, the score is".toList cs)))
    else cs
  else cs

/-- `AIProcessor._parse_result` with the provider/model state split out
into the one bit it is read through.  Strategy order as in the source:
empty check; "My answer is:" tail; Google thinking cleanup; then the
numeric/regex/JSON/keyword chain of `scoreOfText`. -/
def parseCore (gthink : Bool) (text : String) : Nat :=
  if text.toList = [] ∨ pyStrip text.toList = [] then 4
  else
    scoreOfText (pyStrip
      (if gthink then googleClean (unwrapAnswer text.toList) else unwrapAnswer text.toList))

/-- `AIProcessor._parse_result(result_text)`: the score parser as a
function of the input text and the processor state it reads
(`self.provider`, `self.model`). -/
def parseResultL (provider model text : String) : Nat :=
  parseCore (googleThinkingCfg provider model) text

/-! ### Provider scoring calls and the retry behaviour

Each `_get_score_*` function is embedded over an oracle giving the outcome
of each submit attempt.  `while True` loops are given fuel: a `none` result
means the loop is still retrying after that many attempts.  The
`time.sleep` lengths (2s vs 20s) are not modelled; both branches retry. -/

/-- Case-insensitive Python `pat in s.lower()` for an ASCII pattern. -/
def containsStrLower (s pat : String) : Bool :=
  containsSub pat.toList (pyLower s.toList)

/-- Plain Python `pat in s`. -/
def containsStr (s pat : String) : Bool :=
  containsSub pat.toList s.toList

/-- Outcome of one DeepSeek HTTP attempt (`_get_score_deepseek`). -/
inductive DSResp where
  | ok (text : String)       -- status 200 with a first choice
  | okBadShape               -- status 200 without choices: retried
  | err400 (body : String)   -- status 400 with the error body
  | err429                   -- rate limited
  | errOther                 -- any other status
  | exn                      -- requests raised
deriving DecidableEq

/-- `AIProcessor._get_score_deepseek` (lines 1188-1291).  `resp k` is the
outcome of attempt `k`; `model` is the current `self.model` (mutated by
the fallback substitution); the result carries the final model.  On a 400
whose body mentions the model, `self.model` is set to `deepseek-chat` and
the loop continues (without bound); on a 400 mentioning the api key or
authentication it returns 4 at once; every other failure retries. -/
def getScoreDeepseek (resp : Nat → DSResp) : String → Nat → Nat → Option (Nat × String)
  | _, _, 0 => none
  | model, k, fuel + 1 =>
      match resp k with
      | .ok text => some (parseResultL "deepseek" model text, model)
      | .okBadShape => getScoreDeepseek resp model (k + 1) fuel
      | .err400 body =>
          if containsStrLower body "model parameter" || containsStrLower body "model not found" then
            getScoreDeepseek resp "deepseek-chat" (k + 1) fuel
          else if containsStrLower body "api key" || containsStrLower body "authentication" then
            some (4, model)
          else getScoreDeepseek resp model (k + 1) fuel
      | .err429 => getScoreDeepseek resp model (k + 1) fuel
      | .errOther => getScoreDeepseek resp model (k + 1) fuel
      | .exn => getScoreDeepseek resp model (k + 1) fuel

/-- Outcome of one OpenAI chat-completions attempt. -/
inductive OAResp where
  | ok (text : String)       -- response text extracted
  | exn (msg : String)       -- client missing or API raised, with str(e)
deriving DecidableEq

/-- The `while True` loop of `AIProcessor._get_score_openai`
(lines 824-876; the `o1-mini` special handler at line 820 dispatches
elsewhere and takes no part in this loop).  Every exception is retried:
the message is inspected only to choose the sleep length (20s for
"429"/"rate limit", 2s otherwise), never to stop retrying. -/
def getScoreOpenaiChat (resp : Nat → OAResp) (model : String) : Nat → Nat → Option Nat
  | _, 0 => none
  | k, fuel + 1 =>
      match resp k with
      | .ok text => some (parseResultL "openai" model text)
      | .exn msg =>
          if containsStr msg "429" || containsStrLower msg "rate limit" then
            getScoreOpenaiChat resp model (k + 1) fuel
          else
            getScoreOpenaiChat resp model (k + 1) fuel

/-- Outcome of the single Google attempt (`_get_score_google`). -/
inductive GResp where
  | clientFail               -- google client could not be initialized
  | ok (text : String)       -- response.text present and nonempty
  | noText                   -- unexpected response shape / empty text
  | exn (msg : String)       -- API raised, with str(e)
deriving DecidableEq

/-- `AIProcessor._get_score_google` (lines 1149-1186): a single attempt,
no retry loop.  On an exception whose message mentions "model" and
"not found", `self.model` is replaced by `gemini-1.5-flash` for later
calls, and 4 is returned immediately — the substituted model is not
retried within this call.  The result carries the final `self.model`. -/
def getScoreGoogle (resp : GResp) (model : String) : Nat × String :=
  match resp with
  | .clientFail => (4, model)
  | .ok text => (parseResultL "google" model text, model)
  | .noText => (4, model)
  | .exn msg =>
      if containsStrLower msg "model" && containsStrLower msg "not found" then
        (4, "gemini-1.5-flash")
      else (4, model)

/-- Outcome of one OpenAI reasoning-model attempt
(`_get_score_with_prompt_openai_reasoning`). -/
inductive RResp where
  | ok (text : String)
  | apiErr (msg : String)    -- the inner chat.completions call raised
  | genErr                   -- the outer try raised
deriving DecidableEq

/-- Outcome of the one fallback attempt with `gpt-4o`. -/
inductive FResp where
  | ok (text : String)
  | fail
deriving DecidableEq

/-- Word character for `re`'s `\b` (ASCII). -/
def wordChar (c : Char) : Bool :=
  c.isAlphanum || c = '_'

/-- `re.search(r'\b([1-7])\b', s)`: first digit 1-7 standing alone at word
boundaries; `prev` is the character just before the current position. -/
def findStandalone17 (prev : Option Char) : List Char → Option Char
  | [] => none
  | c :: rest =>
      if ('1' ≤ c && c ≤ '7') &&
         (match prev with | none => true | some pc => !wordChar pc) &&
         (match rest with | [] => true | n :: _ => !wordChar n) then
        some c
      else findStandalone17 (some c) rest

/-- `AIProcessor._get_score_with_prompt_openai_reasoning` (lines
1662-1765).  On success, a standalone digit 1-7 is returned directly,
else the full text goes through `_parse_result`.  On an API error whose
message contains "model not found", one fallback attempt with `gpt-4o` is
made (`fb k`): if it succeeds its text is parsed (with `self.model`
already restored), if it fails 4 is returned.  Rate-limit errors retry;
any other error returns 4. -/
def getScoreOpenaiReasoning (resp : Nat → RResp) (fb : Nat → FResp) :
    String → Nat → Nat → Option (Nat × String)
  | _, _, 0 => none
  | model, k, fuel + 1 =>
      match resp k with
      | .ok text =>
          match findStandalone17 none text.toList with
          | some c => some (c.toNat - 48, model)
          | none => some (parseResultL "openai" model text, model)
      | .apiErr msg =>
          if containsStrLower msg "model not found" then
            match fb k with
            | .ok text2 => some (parseResultL "openai" model text2, model)
            | .fail => some (4, model)
          else if containsStr msg "429" || containsStrLower msg "rate limit" then
            getScoreOpenaiReasoning resp fb model (k + 1) fuel
          else some (4, model)
      | .genErr => some (4, model)

/-- The provider ids dispatched by `get_relevance_score` (lines 794-808). -/
def knownProviders : List String :=
  ["openai", "anthropic", "google", "deepseek", "mistral", "cohere", "azure-openai"]

/-- `AIProcessor.get_relevance_score` (lines 722-815), abstracted over the
dispatched provider call: `call` is `.ok s` when the `_get_score_*`
invocation returns score `s` and `.error msg` when it raises.  An unknown
provider returns `0.0` (line 811); the catch-all `except` (lines 813-815)
converts any exception to `0.0` — not to the neutral default 4. -/
def getRelevanceScore (provider : String) (call : Except String ℚ) : ℚ :=
  if provider ∈ knownProviders then
    match call with
    | .ok s => s
    | .error _ => 0
  else 0

/-! ### The batch orchestrator `ProcessingThread.run`

The worker is embedded as a deterministic function of its parameters, a
scoring oracle `oracle iter idx` (the value returned by the
`get_relevance_score` call — total, since that method absorbs every
exception), and a cancellation trace `flag : Nat → Bool` giving the value
of `self.terminate_flag` at its `k`-th read (reads happen at the top of
the outer loop, at the top of the inner loop, and once after the loops).
Qt signal emissions and the Excel write are recorded as an event trace;
interpolated log strings are abbreviated to fixed tags, except the
claim-relevant literal "Processing cancelled.".  Excel I/O failures
(batch-fatal exceptions) and the forced `QThread.terminate()` in
`ProcessingThread.terminate` are outside this model. -/

/-- One input record, reduced to the two fields the control flow reads
(`str(row.get(title_col, ''))`, `str(row.get(abstract_col, ''))`). -/
structure Row where
  title : String
  abstract : String
deriving DecidableEq

/-- One appended result row.  `srcIndex` is the index of the source record
(the source appends a copy of the row dict, which identifies it);
`score` is the Python float `relevance_score`; `isRel` the computed
`relevance_score >= threshold`.  The timestamp column is not modelled. -/
structure ResRow where
  srcIndex : Nat
  iteration : Nat
  score : ℚ
  isRel : Bool
deriving DecidableEq

/-- Observable events of a run, in emission order. -/
inductive Ev where
  | pct (p : Nat)                           -- progress_percentage.emit
  | msg (s : String)                        -- progress_update.emit
  | apiCall (iter idx : Nat)                -- a provider scoring call
  | saved (results : List ResRow)           -- excel save (the ResultSink)
  | complete (processed relevant : Nat)     -- processing_complete.emit
  | error (s : String)                      -- error_occurred.emit
deriving DecidableEq

/-- Run parameters (those the control flow reads). -/
structure WParams where
  data : List Row
  maxRecords : Nat
  iterations : Nat
  threshold : ℚ
deriving DecidableEq

/-- Worker state threaded through the run. -/
structure WState where
  events : List Ev
  results : List ResRow
  relevant : Nat
  completed : Nat
  reads : Nat
deriving DecidableEq

/-- `effective_total` (lines 85-89). -/
def effectiveTotal (p : WParams) : Nat :=
  if 0 < p.maxRecords ∧ p.maxRecords < p.data.length then p.maxRecords
  else p.data.length

/-- `total_tasks = effective_total * self.iterations` (line 92). -/
def totalTasks (p : WParams) : Nat :=
  effectiveTotal p * p.iterations

/-- Round a nonnegative fraction `n / d` to the nearest integer, ties to
even — the rounding rule of IEEE-754 binary64 arithmetic. -/
def rhe (n d : Nat) : Nat :=
  if 2 * (n % d) < d then n / d
  else if d < 2 * (n % d) then n / d + 1
  else if (n / d) % 2 = 0 then n / d else n / d + 1

/-- Fuelled floor of log2 (structural, kernel-reducible). -/
def log2f : Nat → Nat → Nat
  | 0, _ => 0
  | fuel + 1, n => if 2 ≤ n then log2f fuel (n / 2) + 1 else 0

/-- `⌊log2 n⌋` for `n ≥ 1`. -/
def natLog2 (n : Nat) : Nat := log2f n n

/-- Decide `2 ^ k ≤ n / d` without leaving the integers. -/
def pow2LeQ (k : Int) (n d : Nat) : Bool :=
  if 0 ≤ k then decide (d * 2 ^ k.toNat ≤ n) else decide (d ≤ n * 2 ^ (-k).toNat)

/-- `⌊log2 (n / d)⌋` for `n, d ≥ 1`. -/
def ilog2Q (n d : Nat) : Int :=
  if pow2LeQ ((natLog2 n : Int) - (natLog2 d : Int)) n d
  then (natLog2 n : Int) - (natLog2 d : Int)
  else (natLog2 n : Int) - (natLog2 d : Int) - 1

/-- Round a rational to 53 significant binary digits, nearest, ties to
even: correct rounding of a positive real to an IEEE-754 binary64 with
unbounded exponent.  The two progress quantities it is applied to lie in
`(0, 100]`, far from the binary64 overflow and subnormal thresholds, so on
that range this is exactly the double produced by the hardware; nonpositive
input (only `0` arises) maps to `0`. -/
def rnd53 (q : ℚ) : ℚ :=
  if q.num ≤ 0 then 0
  else if 0 ≤ ilog2Q q.num.toNat q.den - 52 then
    mkRat (rhe q.num.toNat (q.den * 2 ^ (ilog2Q q.num.toNat q.den - 52).toNat) *
      2 ^ (ilog2Q q.num.toNat q.den - 52).toNat) 1
  else
    mkRat (rhe (q.num.toNat * 2 ^ (-(ilog2Q q.num.toNat q.den - 52)).toNat) q.den)
      (2 ^ (-(ilog2Q q.num.toNat q.den - 52)).toNat)

/-- `int((completed_tasks / total_tasks) * 100)` (line 118) with the float
arithmetic modelled exactly: `completed_tasks / total_tasks` is Python true
division of ints, the correctly rounded binary64 of the exact ratio
(`rnd53`); `* 100` is a binary64 multiplication, again correctly rounded;
`int(...)` truncates toward zero (the operand is nonnegative, so Nat floor).
This reproduces the float artefacts of line 118, e.g. 28 (not 29) at task 29
of 100, and 57 at task 29 of 50 — see `pctOf_matches_python_examples`. -/
def pctOf (p : WParams) (c : Nat) : Nat :=
  (rnd53 (mkRat ((rnd53 (mkRat c (totalTasks p))).num * 100)
      (rnd53 (mkRat c (totalTasks p))).den)).num.toNat /
    (rnd53 (mkRat ((rnd53 (mkRat c (totalTasks p))).num * 100)
      (rnd53 (mkRat c (totalTasks p))).den)).den

/-- Append one event. -/
def emit (e : Ev) (st : WState) : WState :=
  { st with events := st.events ++ [e] }

/-- One read of `self.terminate_flag`. -/
def readFlag (flag : Nat → Bool) (st : WState) : Bool × WState :=
  (flag st.reads, { st with reads := st.reads + 1 })

/-- The loop body for one record (lines 113-233): bump `completed_tasks`
and emit the percentage; a record with empty title and empty abstract is
never sent to a provider — appended with score 0 in iteration 1, skipped
otherwise; any other record is scored via the provider call and appended
with `is_relevant = score >= threshold`. -/
def processRecord (p : WParams) (oracle : Nat → Nat → ℚ) (iter idx : Nat)
    (row : Row) (st : WState) : WState :=
  let st := { st with completed := st.completed + 1 }
  let st := emit (.pct (pctOf p st.completed)) st
  if row.title = "" ∧ row.abstract = "" then
    let st := emit (.msg "missing, skipping") st
    if iter = 1 then
      { st with results := st.results ++ [⟨idx, iter, 0, false⟩] }
    else st
  else
    let st := emit (.msg "processing row") st
    let st := emit (.apiCall iter idx) st
    let score := oracle iter idx
    let rel := decide (p.threshold ≤ score)
    let st := { st with
      results := st.results ++ [⟨idx, iter, score, rel⟩],
      relevant := if rel then st.relevant + 1 else st.relevant }
    emit (.msg "evaluation result") st

/-- The inner record loop (lines 103-233): per record, check the
cancellation flag, then the `max_records` cap, then process. -/
def innerLoop (p : WParams) (oracle : Nat → Nat → ℚ) (flag : Nat → Bool)
    (iter : Nat) : List Row → Nat → WState → WState
  | [], _, st => st
  | row :: rest, idx, st =>
      let (b, st) := readFlag flag st
      if b then emit (.msg "Processing cancelled.") st
      else if 0 < p.maxRecords ∧ p.maxRecords ≤ idx then
        emit (.msg "maximum record count reached") st
      else
        innerLoop p oracle flag iter rest (idx + 1) (processRecord p oracle iter idx row st)

/-- The outer iteration loop (lines 96-233), `rem` iterations left,
current iteration number `iter` (1-based). -/
def outerLoop (p : WParams) (oracle : Nat → Nat → ℚ) (flag : Nat → Bool) :
    Nat → Nat → WState → WState
  | _, 0, st => st
  | iter, rem + 1, st =>
      let (b, st) := readFlag flag st
      if b then emit (.msg "Processing cancelled.") st
      else
        let st := emit (.msg "starting iteration") st
        let st := innerLoop p oracle flag iter p.data 0 st
        outerLoop p oracle flag (iter + 1) rem st

/-- The state after the pre-loop emissions (lines 51-92): progress 0,
the startup log lines, and the cap notice when `max_records` bites. -/
def preState (p : WParams) : WState :=
  if 0 < p.maxRecords ∧ p.maxRecords < p.data.length then
    emit (Ev.msg "maximum records limited")
      (emit (Ev.msg "iterations setting")
        (emit (Ev.msg "articles found")
          (emit (Ev.msg "Starting...") (emit (Ev.pct 0) ⟨[], [], 0, 0, 0⟩))))
  else
    emit (Ev.msg "iterations setting")
      (emit (Ev.msg "articles found")
        (emit (Ev.msg "Starting...") (emit (Ev.pct 0) ⟨[], [], 0, 0, 0⟩)))

/-- The save-and-complete tail (lines 237-260), applied to the post-loop
state: write the results, emit 100, and signal completion with
`processed_count = len(processed_data) // self.iterations` — for
`iterations = 0` that division raises `ZeroDivisionError`, which the
catch-all (line 262) turns into an error event.  (The emissions do not
change `results`/`relevant`, so the payload uses `st` directly.) -/
def saveTail (p : WParams) (st : WState) : WState :=
  if p.iterations = 0 then
    emit (Ev.error "Processing error: integer division or modulo by zero")
      (emit (Ev.pct 100)
        (emit (Ev.saved st.results) (emit (Ev.msg "Writing results to Excel...") st)))
  else
    emit (Ev.complete (st.results.length / p.iterations) st.relevant)
      (emit (Ev.msg "Processing completed.")
        (emit (Ev.pct 100)
          (emit (Ev.saved st.results) (emit (Ev.msg "Writing results to Excel...") st))))

/-- The final flag read (line 236): when it is set, the run ends without
writing anything; otherwise the save tail runs. -/
def runTail (p : WParams) (flag : Nat → Bool) (st : WState) : WState :=
  if flag st.reads then { st with reads := st.reads + 1 }
  else saveTail p { st with reads := st.reads + 1 }

/-- `ProcessingThread.run` (lines 47-264). -/
def runWorker (p : WParams) (oracle : Nat → Nat → ℚ) (flag : Nat → Bool) : WState :=
  if p.data.length = 0 then
    emit (Ev.error "No data found in the Excel file.")
      (emit (Ev.msg "Starting...") (emit (Ev.pct 0) ⟨[], [], 0, 0, 0⟩))
  else
    runTail p flag (outerLoop p oracle flag 1 p.iterations (preState p))

/-- Projection of the emitted progress-percentage sequence. -/
def pcts (evs : List Ev) : List Nat :=
  evs.filterMap (fun e => match e with | .pct q => some q | _ => none)

/-- Does the trace contain the Excel write? -/
def hasSaved (evs : List Ev) : Bool :=
  evs.any (fun e => match e with | .saved _ => true | _ => false)

/-- Does the trace contain the completion signal? -/
def hasComplete (evs : List Ev) : Bool :=
  evs.any (fun e => match e with | .complete _ _ => true | _ => false)

/-- Does the trace contain an error signal? -/
def hasError (evs : List Ev) : Bool :=
  evs.any (fun e => match e with | .error _ => true | _ => false)

/-- The cancellation flag is set once and stays set. -/
def MonoFlag (flag : Nat → Bool) : Prop :=
  ∀ i j, i ≤ j → flag i = true → flag j = true

/-- A record that passes the missing-title-and-abstract check. -/
def rowNonEmpty (r : Row) : Bool :=
  !(r.title == "" && r.abstract == "")

/-- Characters that can occur in a decimal literal accepted by `float`. -/
def floatChar (c : Char) : Bool :=
  c.isDigit || c = '+' || c = '-' || c = '.' || c = '_' || c = 'e' || c = 'E'

/-! ### Concrete instances used by counterexamples and witnesses -/

/-- A DeepSeek backend that always reports an authentication error. -/
def dsAuthResp : Nat → DSResp :=
  fun _ => .err400 "Authentication Fails (no such user): invalid api key"

/-- An OpenAI backend whose every attempt raises an authentication error. -/
def oaAuthResp : Nat → OAResp :=
  fun _ => .exn "Error code: 401 - Incorrect API key provided"

/-- A DeepSeek backend: first attempt rejects the model id, every further
attempt (the substituted fallback model included) fails with another
status. -/
def dsModelNotFoundResp : Nat → DSResp :=
  fun k => if k = 0 then .err400 "Model Not Found" else .errOther

/-- An OpenAI reasoning backend whose attempt reports a missing model. -/
def rrModelNotFound : Nat → RResp :=
  fun _ => .apiErr "Error code: 404 - model not found"

/-- A fallback attempt that fails. -/
def fbFail : Nat → FResp := fun _ => .fail

/-- A fallback attempt that answers "6". -/
def fbOk6 : Nat → FResp := fun _ => .ok "6"

/-- `n` records with nonempty title and abstract. -/
def rowsTA (n : Nat) : List Row :=
  (List.range n).map (fun _ => ⟨"t", "a"⟩)

/-- 15 records, one iteration, no cap, threshold 4. -/
def params15 : WParams := ⟨rowsTA 15, 0, 1, 4⟩

/-- 100 records, one iteration, no cap, threshold 4. -/
def params100 : WParams := ⟨rowsTA 100, 0, 1, 4⟩

/-- 50 records, one iteration, no cap, threshold 4. -/
def params50 : WParams := ⟨rowsTA 50, 0, 1, 4⟩

/-- 1 record, one iteration, no cap, threshold 4. -/
def params1 : WParams := ⟨rowsTA 1, 0, 1, 4⟩

/-- 3 records of which the middle one has empty title and abstract; two
iterations. -/
def paramsMix : WParams := ⟨[⟨"t", ""⟩, ⟨"", ""⟩, ⟨"", "a"⟩], 0, 2, 4⟩

/-- The flag is observed set from its fourth read on (after the second of
15 tasks: reads 0 = outer top, 1-2 = inner tops of tasks 1-2). -/
def cancelAfter3 : Nat → Bool := fun k => decide (3 ≤ k)

/-- The flag is observed set only at the final (post-loop) read of a
one-record run (reads 0 = outer top, 1 = inner top, 2 = final check). -/
def cancelAtEnd : Nat → Bool := fun k => decide (2 ≤ k)

/-- The flag is never set. -/
def neverCancel : Nat → Bool := fun _ => false

/-- A scoring oracle that always returns 6. -/
def constScore6 : Nat → Nat → ℚ := fun _ _ => 6

/-- Events the two loops can emit (progress, log lines, provider calls);
the loops never emit `saved`, `complete` or `error`. -/
def loopEv : Ev → Bool
  | .pct _ => true
  | .msg _ => true
  | .apiCall _ _ => true
  | _ => false

/-- The progress invariant carried through the run: the emitted
percentage sequence is non-decreasing, every percentage is bounded by the
percentage of the current `completed_tasks`, and every percentage is the
floor formula at some earlier task count. -/
def PctInv (p : WParams) (st : WState) : Prop :=
  List.Chain' (· ≤ ·) (pcts st.events) ∧
  (∀ q ∈ pcts st.events, q ≤ pctOf p st.completed) ∧
  (∀ q ∈ pcts st.events, ∃ c, c ≤ st.completed ∧ q = pctOf p c)

/-! ### Range and purity properties of the score parser -/

theorem clamp17_range (n : Int) : 1 ≤ clamp17 n ∧ clamp17 n ≤ 7 := by
  unfold clamp17
  omega

theorem jsonScoreBranch_mem (cs : List Char) (r : Nat)
    (h : jsonScoreBranch cs = some r) : r = 1 ∨ r = 4 := by
  unfold jsonScoreBranch at h
  split at h
  · exact absurd h (by simp)
  · split at h
    · exact Or.inl (Option.some.inj h).symm
    · exact Or.inr (Option.some.inj h).symm
    · exact Or.inr (Option.some.inj h).symm
  · exact Or.inr (Option.some.inj h).symm

theorem le_foldl_max (l : List Nat) (a : Nat) : a ≤ l.foldl Nat.max a := by
  induction l generalizing a with
  | nil => simp
  | cons x xs ih => exact le_trans (Nat.le_max_left a x) (ih (Nat.max a x))

theorem foldl_max_le (l : List Nat) (a : Nat) (h : a ≤ 7)
    (hl : ∀ v ∈ l, v ≤ 7) : l.foldl Nat.max a ≤ 7 := by
  induction l generalizing a with
  | nil => simpa
  | cons x xs ih =>
      refine ih (Nat.max a x) ?_ (fun v hv => hl v (by simp [hv]))
      exact Nat.max_le.mpr ⟨h, hl x (by simp)⟩

theorem keywordScore_range (cs : List Char) :
    1 ≤ keywordScore cs ∧ keywordScore cs ≤ 7 := by
  unfold keywordScore
  have hmem : ∀ v ∈ scoreKeywords.filterMap
      (fun kv => if containsSub kv.1 cs then some kv.2 else none), 1 ≤ v ∧ v ≤ 7 := by
    intro v hv
    rcases List.mem_filterMap.mp hv with ⟨kv, hkv, hv2⟩
    have hv3 : kv.2 = v := by
      split at hv2
      · exact Option.some.inj hv2
      · exact absurd hv2 (by simp)
    have : 1 ≤ kv.2 ∧ kv.2 ≤ 7 := by
      simp only [scoreKeywords, List.mem_cons, List.not_mem_nil, or_false] at hkv
      rcases hkv with h | h | h | h | h | h | h <;> subst h <;> omega
    omega
  rcases hl : scoreKeywords.filterMap
      (fun kv => if containsSub kv.1 cs then some kv.2 else none) with _ | ⟨x, xs⟩
  · simp [hl]
  · rw [hl]
    constructor
    · have hx : 1 ≤ x ∧ x ≤ 7 := hmem x (by rw [hl]; simp)
      calc 1 ≤ x := hx.1
        _ ≤ Nat.max 0 x := le_trans (Nat.le_max_right 0 x) (le_refl _)
        _ ≤ (x :: xs).foldl Nat.max 0 := by
              simpa using le_foldl_max xs (Nat.max 0 x)
    · refine foldl_max_le _ 0 (by omega) ?_
      intro v hv
      exact (hmem v (by rw [hl]; exact hv)).2

theorem scoreOfText_range (t : List Char) :
    1 ≤ scoreOfText t ∧ scoreOfText t ≤ 7 := by
  unfold scoreOfText
  split
  · split
    · omega
    · exact clamp17_range _
  · split
    · split
      · omega
      · exact clamp17_range _
    · split
      · rename_i r heq
        have := jsonScoreBranch_mem _ _ heq
        omega
      · exact keywordScore_range _

theorem parseCore_range (g : Bool) (text : String) :
    1 ≤ parseCore g text ∧ parseCore g text ≤ 7 := by
  unfold parseCore
  split
  · omega
  · exact scoreOfText_range _

theorem parseCore_blank (g : Bool) (text : String)
    (h : pyStrip text.toList = []) : parseCore g text = 4 := by
  unfold parseCore
  rw [if_pos (Or.inr h)]

/-- C2: for every input string (and any provider/model state), the score
parser returns an integer in [1,7]; it never raises (it is a total
function); and an empty or whitespace-only input yields the neutral
default 4. -/
theorem c2_parser_total_range (provider model text : String) :
    (1 ≤ parseResultL provider model text ∧ parseResultL provider model text ≤ 7) ∧
    (pyStrip text.toList = [] → parseResultL provider model text = 4) :=
  ⟨parseCore_range _ _, fun h => parseCore_blank _ _ h⟩

/-- Witness for C2 at concrete inputs: whitespace gives 4; a plain text
is in range. -/
theorem c2_parser_total_range_witness :
    parseResultL "openai" "gpt-4.1" "  " = 4 ∧
    1 ≤ parseResultL "openai" "gpt-4.1" "hello" := by
  refine ⟨(c2_parser_total_range "openai" "gpt-4.1" "  ").2 (by decide),
    (c2_parser_total_range "openai" "gpt-4.1" "hello").1.1⟩

/-- C9 counterexample: the same response text parses differently under
different provider/model state — the Google thinking cleanup strips the
reasoning prefix ("Final answer: 7" wins), while for any other provider
the first digit run ("3") wins.  This refutes "regardless of any other
parser state such as the configured provider or model identifier". -/
theorem c9_state_dependence_counterexample :
    parseResultL "google" "gemini-2.0-flash"
      "I need to analyze the 3 criteria. Final answer: 7" = 7 ∧
    parseResultL "openai" "gpt-4.1"
      "I need to analyze the 3 criteria. Final answer: 7" = 3 := by
  constructor <;> decide

/-- C9 (amended): the parser is a pure, deterministic function of the
input text together with the one bit of processor state it reads (whether
the Google thinking cleanup applies); for two states agreeing on that bit
the result is identical for every text. -/
theorem c9_parser_deterministic_in_state (p₁ m₁ p₂ m₂ t : String)
    (h : googleThinkingCfg p₁ m₁ = googleThinkingCfg p₂ m₂) :
    parseResultL p₁ m₁ t = parseResultL p₂ m₂ t := by
  unfold parseResultL
  rw [h]

/-- Witness for the amended C9: two non-Google configurations agree. -/
theorem c9_parser_deterministic_in_state_witness :
    parseResultL "openai" "gpt-4.1" "score 5" =
    parseResultL "deepseek" "deepseek-chat" "score 5" :=
  c9_parser_deterministic_in_state "openai" "gpt-4.1" "deepseek" "deepseek-chat"
    "score 5" (by decide)

/-! ### The numeric strategy: truncation, not rounding (C3) -/

theorem isPrefixL_mem {pat cs : List Char} (h : isPrefixL pat cs = true) :
    ∀ x ∈ pat, x ∈ cs := by
  induction pat generalizing cs with
  | nil => simp
  | cons p ps ih =>
      cases cs with
      | nil => exact absurd h (by simp [isPrefixL])
      | cons c cs' =>
          simp only [isPrefixL, Bool.and_eq_true, decide_eq_true_eq] at h
          intro x hx
          rcases List.mem_cons.mp hx with rfl | hx'
          · simp [h.1]
          · exact List.mem_cons_of_mem _ (ih h.2 x hx')

theorem containsSub_mem {pat cs : List Char} (h : containsSub pat cs = true) :
    ∀ x ∈ pat, x ∈ cs := by
  induction cs with
  | nil =>
      intro x hx
      cases pat with
      | nil => exact absurd hx (by simp)
      | cons p ps => exact absurd h (by simp [containsSub, isPrefixL])
  | cons c cs' ih =>
      simp only [containsSub, Bool.or_eq_true] at h
      rcases h with h | h
      · exact isPrefixL_mem h
      · exact fun x hx => List.mem_cons_of_mem _ (ih h x hx)

theorem dropWhile_all_false {p : Char → Bool} {l : List Char}
    (h : ∀ c ∈ l, p c = false) : l.dropWhile p = l := by
  cases l with
  | nil => rfl
  | cons a l' => simp [List.dropWhile, h a (by simp)]

theorem pyStrip_all_nospace {cs : List Char}
    (h : ∀ c ∈ cs, pyIsSpace c = false) : pyStrip cs = cs := by
  unfold pyStrip
  rw [dropWhile_all_false h,
    dropWhile_all_false (fun c hc => h c (List.mem_reverse.mp hc)),
    List.reverse_reverse]

theorem floatChar_nospace {c : Char} (h : floatChar c = true) :
    pyIsSpace c = false := by
  have h1 : c ≠ ' ' := by rintro rfl; exact absurd h (by decide)
  have h2 : c ≠ '\t' := by rintro rfl; exact absurd h (by decide)
  have h3 : c ≠ '\n' := by rintro rfl; exact absurd h (by decide)
  have h4 : c ≠ '\r' := by rintro rfl; exact absurd h (by decide)
  have h5 : c ≠ '\x0b' := by rintro rfl; exact absurd h (by decide)
  have h6 : c ≠ '\x0c' := by rintro rfl; exact absurd h (by decide)
  simp [pyIsSpace, h1, h2, h3, h4, h5, h6]

theorem contains_false_of_bad_char (cs pat : List Char) (x : Char)
    (hall : ∀ c ∈ cs, floatChar c = true) (hx : x ∈ pat)
    (hxf : floatChar x = false) : containsSub pat cs = false := by
  by_contra h
  rw [Bool.not_eq_false] at h
  exact absurd (hall x (containsSub_mem h x hx)) (by simp [hxf])

theorem parseFloatQ_nil : parseFloatQ [] = none := rfl

theorem scoreOfText_num {t : List Char} {q : ℚ} (h : parseFloatQ t = some q) :
    scoreOfText t = if qOverflow q then 4 else clamp17 (truncQ q) := by
  unfold scoreOfText
  rw [h]

/-- C3 counterexample: `"4.6"` parses to 4 (truncation toward zero), not
to 5 as the round-to-nearest claim demands. -/
theorem c3_truncation_counterexample :
    parseResultL "openai" "gpt-4.1" "4.6" = 4 ∧
    parseResultL "openai" "gpt-4.1" "4.6" ≠ 5 := by
  constructor <;> decide

/-- C3 (amended): on a decimal literal with value `q` inside the double
range, the parser returns `clamp(trunc(q), 1, 7)` — truncation toward
zero, not rounding to nearest.  (`"9" → 7` and `"-3" → 1` as claimed, but
`"4.6" → 4`.) -/
theorem c3_parser_truncates (provider model : String) (s : String) (q : ℚ)
    (hchars : ∀ c ∈ s.toList, floatChar c = true)
    (hq : parseFloatQ s.toList = some q)
    (hov : qOverflow q = false) :
    parseResultL provider model s = clamp17 (truncQ q) := by
  have hne : s.toList ≠ [] := by
    intro h0
    rw [h0, parseFloatQ_nil] at hq
    cases hq
  have hstrip : pyStrip s.toList = s.toList :=
    pyStrip_all_nospace (fun c hc => floatChar_nospace (hchars c hc))
  have hM : containsSub "My answer is:".toList s.toList = false :=
    contains_false_of_bad_char _ _ 'M' hchars (by decide) (by decide)
  have hI : containsSub "I need to analyze".toList s.toList = false :=
    contains_false_of_bad_char _ _ 'I' hchars (by decide) (by decide)
  have hL : containsSub "Let me analyze".toList s.toList = false :=
    contains_false_of_bad_char _ _ 'L' hchars (by decide) (by decide)
  have hun : unwrapAnswer s.toList = s.toList := by
    unfold unwrapAnswer
    rw [hM]
    simp
  have hgc : googleClean s.toList = s.toList := by
    unfold googleClean
    rw [hI, hL]
    simp
  unfold parseResultL parseCore
  rw [if_neg (by rw [hstrip]; exact not_or.mpr ⟨hne, hne⟩), hun, hgc, ite_self, hstrip,
    scoreOfText_num hq, hov]
  simp

/-- Witness for the amended C3 at the claim's own sample inputs. -/
theorem c3_parser_truncates_witness :
    parseResultL "openai" "gpt-4.1" "9" = 7 ∧
    parseResultL "openai" "gpt-4.1" "-3" = 1 ∧
    parseResultL "openai" "gpt-4.1" "4.6" = 4 := by
  refine ⟨?_, ?_, ?_⟩
  · exact (c3_parser_truncates "openai" "gpt-4.1" "9" 9 (by decide) (by decide)
      (by decide)).trans (by decide)
  · exact (c3_parser_truncates "openai" "gpt-4.1" "-3" (-3) (by decide) (by decide)
      (by decide)).trans (by decide)
  · exact (c3_parser_truncates "openai" "gpt-4.1" "4.6" (mkRat 23 5) (by decide)
      (by decide) (by decide)).trans (by decide)

/-- Certification of `truncQ`: it is floor for nonnegative rationals and
ceiling for negative ones, i.e. truncation toward zero. -/
theorem truncQ_eq_floor_ceil (q : ℚ) :
    truncQ q = if 0 ≤ q then ⌊q⌋ else ⌈q⌉ := by
  unfold truncQ
  by_cases h : 0 ≤ q.num
  · rw [if_pos h, if_pos (Rat.num_nonneg.mp h), Rat.floor_def]
    rw [← Int.natAbs_of_nonneg h]
    exact (Int.ofNat_ediv _ _)
  · have hq : ¬(0 ≤ q) := fun hc => h (Rat.num_nonneg.mpr hc)
    have hc : (⌈q⌉ : Int) = -⌊-q⌋ := by rw [Int.floor_neg, neg_neg]
    rw [if_neg h, if_neg hq, hc, Rat.floor_def, Rat.neg_num, Rat.neg_den, neg_inj]
    have h0 : (0 : Int) ≤ -q.num := by omega
    calc ((q.num.natAbs / q.den : Nat) : Int)
        = (((-q.num).natAbs / q.den : Nat) : Int) := by rw [Int.natAbs_neg]
      _ = ((-q.num).natAbs : Int) / (q.den : Int) := Int.ofNat_ediv _ _
      _ = (-q.num) / (q.den : Int) := by rw [Int.natAbs_of_nonneg h0]

/-! ### Retry behaviour of the provider calls (C4, C6) -/

/-- One step of the DeepSeek retry loop (definitional). -/
theorem getScoreDeepseek_step (resp : Nat → DSResp) (model : String) (k fuel : Nat) :
    getScoreDeepseek resp model k (fuel + 1) =
      match resp k with
      | .ok text => some (parseResultL "deepseek" model text, model)
      | .okBadShape => getScoreDeepseek resp model (k + 1) fuel
      | .err400 body =>
          if containsStrLower body "model parameter" ||
             containsStrLower body "model not found" then
            getScoreDeepseek resp "deepseek-chat" (k + 1) fuel
          else if containsStrLower body "api key" ||
                  containsStrLower body "authentication" then
            some (4, model)
          else getScoreDeepseek resp model (k + 1) fuel
      | .err429 => getScoreDeepseek resp model (k + 1) fuel
      | .errOther => getScoreDeepseek resp model (k + 1) fuel
      | .exn => getScoreDeepseek resp model (k + 1) fuel := rfl

/-- One step of the OpenAI chat retry loop (definitional). -/
theorem getScoreOpenaiChat_step (resp : Nat → OAResp) (model : String) (k fuel : Nat) :
    getScoreOpenaiChat resp model k (fuel + 1) =
      match resp k with
      | .ok text => some (parseResultL "openai" model text)
      | .exn msg =>
          if containsStr msg "429" || containsStrLower msg "rate limit" then
            getScoreOpenaiChat resp model (k + 1) fuel
          else
            getScoreOpenaiChat resp model (k + 1) fuel := rfl

/-- The OpenAI chat loop never returns while every attempt raises: any
exception — authentication failures included — only selects a sleep
length and retries. -/
theorem openaiChat_exn_forever (msg model : String) (k fuel : Nat) :
    getScoreOpenaiChat (fun _ => OAResp.exn msg) model k fuel = none := by
  induction fuel generalizing k with
  | zero => rfl
  | succ n ih =>
      rw [getScoreOpenaiChat_step]
      show (if (containsStr msg "429" || containsStrLower msg "rate limit") = true
            then getScoreOpenaiChat (fun _ => OAResp.exn msg) model (k + 1) n
            else getScoreOpenaiChat (fun _ => OAResp.exn msg) model (k + 1) n) = none
      split <;> exact ih _

/-- C4 counterexample: on an authentication failure the OpenAI
chat-completions variant does not return the neutral default — after six
attempts against a backend that keeps raising the 401 error it is still
retrying (`none`), refuting "for every provider variant ... performs no
retry: it returns the neutral default score 4". -/
theorem c4_openai_auth_retries_counterexample :
    getScoreOpenaiChat oaAuthResp "gpt-4.1" 0 6 = none := by decide

/-- C4 (amended): only the DeepSeek variant implements the
no-retry-on-authentication rule: a 400 whose body mentions the api key or
authentication returns the neutral default 4 immediately, with no retry
(the result is already determined at fuel 1, whatever the later attempt
outcomes are).  The OpenAI chat variant instead retries indefinitely on
an authentication failure. -/
theorem c4_auth_failure_behaviour (resp : Nat → DSResp) (model body : String)
    (fuel : Nat) (hb : resp 0 = .err400 body)
    (hm : (containsStrLower body "model parameter" ||
           containsStrLower body "model not found") = false)
    (ha : (containsStrLower body "api key" ||
           containsStrLower body "authentication") = true) :
    getScoreDeepseek resp model 0 (fuel + 1) = some (4, model) ∧
    (∀ g : Nat, getScoreOpenaiChat oaAuthResp "gpt-4.1" 0 g = none) := by
  constructor
  · rw [getScoreDeepseek_step, hb]
    simp only [hm, ha]
    simp
  · intro g
    exact openaiChat_exn_forever _ _ _ _

/-- Witness for the amended C4 at a concrete authentication-error body. -/
theorem c4_auth_failure_behaviour_witness :
    getScoreDeepseek dsAuthResp "deepseek-chat" 0 5 = some (4, "deepseek-chat") ∧
    getScoreOpenaiChat oaAuthResp "gpt-4.1" 0 9 = none := by
  have h := c4_auth_failure_behaviour dsAuthResp "deepseek-chat"
    "Authentication Fails (no such user): invalid api key" 4 rfl (by decide) (by decide)
  exact ⟨h.1, h.2 9⟩

/-- C6 counterexample: with a DeepSeek backend whose first attempt
rejects the model id and whose every later attempt fails, the call is
still retrying after 30 attempts — it never returns the neutral default
4 when the fallback also fails, refuting the claim for this variant. -/
theorem c6_deepseek_fallback_counterexample :
    getScoreDeepseek dsModelNotFoundResp "deepseek-reasoner" 0 30 = none := by decide

/-- After the model-not-found substitution, the DeepSeek loop retries the
failing fallback model without bound: it never settles on 4. -/
theorem deepseek_fallback_retries_forever (fuel : Nat) :
    ∀ k, 1 ≤ k →
      getScoreDeepseek dsModelNotFoundResp "deepseek-chat" k fuel = none := by
  induction fuel with
  | zero => intro k _; rfl
  | succ n ih =>
      intro k hk
      have hr : dsModelNotFoundResp k = .errOther := by
        unfold dsModelNotFoundResp
        rw [if_neg (by omega)]
      rw [getScoreDeepseek_step, hr]
      show getScoreDeepseek dsModelNotFoundResp "deepseek-chat" (k + 1) n = none
      exact ih (k + 1) (by omega)

/-- C6 (amended): per-variant model-fallback behaviour.  The OpenAI
reasoning variant behaves as the claim says: substitute `gpt-4o`, retry
exactly once, return the neutral 4 (with the original model restored) if
the fallback also fails, or the parsed fallback answer if it succeeds.
The Google variant substitutes `gemini-1.5-flash` for later calls but
returns 4 immediately without retrying.  The DeepSeek variant substitutes
`deepseek-chat` and goes back into its unbounded retry loop. -/
theorem c6_model_fallback_behaviour
    (resp : Nat → RResp) (fb : Nat → FResp) (model msg : String) (fuel : Nat)
    (hr : resp 0 = .apiErr msg)
    (hm : containsStrLower msg "model not found" = true)
    (gmsg : String) (hgm : (containsStrLower gmsg "model" &&
      containsStrLower gmsg "not found") = true)
    (dresp : Nat → DSResp) (dbody : String) (hd : dresp 0 = .err400 dbody)
    (hdm : (containsStrLower dbody "model parameter" ||
            containsStrLower dbody "model not found") = true) :
    (fb 0 = FResp.fail →
      getScoreOpenaiReasoning resp fb model 0 (fuel + 1) = some (4, model)) ∧
    (∀ t, fb 0 = FResp.ok t →
      getScoreOpenaiReasoning resp fb model 0 (fuel + 1) =
        some (parseResultL "openai" model t, model)) ∧
    getScoreGoogle (.exn gmsg) model = (4, "gemini-1.5-flash") ∧
    getScoreDeepseek dresp model 0 (fuel + 1) =
      getScoreDeepseek dresp "deepseek-chat" 1 fuel := by
  refine ⟨?_, ?_, ?_, ?_⟩
  · intro hfb
    show (match resp 0 with
      | .ok text =>
          match findStandalone17 none text.toList with
          | some c => some (c.toNat - 48, model)
          | none => some (parseResultL "openai" model text, model)
      | .apiErr m =>
          if containsStrLower m "model not found" then
            match fb 0 with
            | .ok text2 => some (parseResultL "openai" model text2, model)
            | .fail => some (4, model)
          else if containsStr m "429" || containsStrLower m "rate limit" then
            getScoreOpenaiReasoning resp fb model 1 fuel
          else some (4, model)
      | .genErr => some (4, model)) = some (4, model)
    rw [hr, hfb]
    simp only [hm]
    simp
  · intro t hfb
    show (match resp 0 with
      | .ok text =>
          match findStandalone17 none text.toList with
          | some c => some (c.toNat - 48, model)
          | none => some (parseResultL "openai" model text, model)
      | .apiErr m =>
          if containsStrLower m "model not found" then
            match fb 0 with
            | .ok text2 => some (parseResultL "openai" model text2, model)
            | .fail => some (4, model)
          else if containsStr m "429" || containsStrLower m "rate limit" then
            getScoreOpenaiReasoning resp fb model 1 fuel
          else some (4, model)
      | .genErr => some (4, model)) = some (parseResultL "openai" model t, model)
    rw [hr, hfb]
    simp only [hm]
    simp
  · show (if (containsStrLower gmsg "model" && containsStrLower gmsg "not found") = true
          then ((4 : Nat), "gemini-1.5-flash") else ((4 : Nat), model)) = (4, "gemini-1.5-flash")
    rw [hgm]
    simp
  · rw [getScoreDeepseek_step, hd]
    simp only [hdm]
    simp

/-- Witness for the amended C6 at concrete messages and backends. -/
theorem c6_model_fallback_behaviour_witness :
    getScoreOpenaiReasoning rrModelNotFound fbFail "o1-pro" 0 3 = some (4, "o1-pro") ∧
    getScoreOpenaiReasoning rrModelNotFound fbOk6 "o1-pro" 0 3 = some (6, "o1-pro") ∧
    getScoreGoogle (.exn "404: model gemini-x not found") "gemini-x" =
      (4, "gemini-1.5-flash") ∧
    getScoreDeepseek dsModelNotFoundResp "deepseek-reasoner" 0 3 =
      getScoreDeepseek dsModelNotFoundResp "deepseek-chat" 1 2 := by
  have h := c6_model_fallback_behaviour rrModelNotFound fbFail "o1-pro"
    "Error code: 404 - model not found" 2 rfl (by decide)
    "404: model gemini-x not found" (by decide)
    dsModelNotFoundResp "Model Not Found" rfl (by decide)
  have h2 := c6_model_fallback_behaviour rrModelNotFound fbOk6 "o1-pro"
    "Error code: 404 - model not found" 2 rfl (by decide)
    "404: model gemini-x not found" (by decide)
    dsModelNotFoundResp "Model Not Found" rfl (by decide)
  refine ⟨h.1 rfl, ?_, h.2.2.1, h.2.2.2⟩
  rw [h2.2.1 "6" rfl]
  decide

/-! ### Basic stepping lemmas for the orchestrator -/

theorem emit_results (e : Ev) (st : WState) : (emit e st).results = st.results := rfl

theorem emit_relevant (e : Ev) (st : WState) : (emit e st).relevant = st.relevant := rfl

theorem emit_completed (e : Ev) (st : WState) : (emit e st).completed = st.completed := rfl

theorem emit_reads (e : Ev) (st : WState) : (emit e st).reads = st.reads := rfl

theorem emit_events (e : Ev) (st : WState) : (emit e st).events = st.events ++ [e] := rfl

theorem readFlag_eq (flag : Nat → Bool) (st : WState) :
    readFlag flag st = (flag st.reads, { st with reads := st.reads + 1 }) := rfl

theorem rowNonEmpty_false_iff (r : Row) :
    rowNonEmpty r = false ↔ (r.title = "" ∧ r.abstract = "") := by
  simp [rowNonEmpty]

theorem processRecord_results (p : WParams) (oracle : Nat → Nat → ℚ)
    (iter idx : Nat) (row : Row) (st : WState) :
    (processRecord p oracle iter idx row st).results = st.results ++
      (if row.title = "" ∧ row.abstract = "" then
        (if iter = 1 then [⟨idx, iter, 0, false⟩] else [])
      else [⟨idx, iter, oracle iter idx, decide (p.threshold ≤ oracle iter idx)⟩]) := by
  unfold processRecord emit
  split
  · split <;> simp
  · simp

theorem processRecord_reads (p : WParams) (oracle : Nat → Nat → ℚ)
    (iter idx : Nat) (row : Row) (st : WState) :
    (processRecord p oracle iter idx row st).reads = st.reads := by
  unfold processRecord emit
  split
  · split <;> simp
  · simp

theorem processRecord_completed (p : WParams) (oracle : Nat → Nat → ℚ)
    (iter idx : Nat) (row : Row) (st : WState) :
    (processRecord p oracle iter idx row st).completed = st.completed + 1 := by
  unfold processRecord emit
  split
  · split <;> simp
  · simp

theorem processRecord_events (p : WParams) (oracle : Nat → Nat → ℚ)
    (iter idx : Nat) (row : Row) (st : WState) :
    (processRecord p oracle iter idx row st).events = st.events ++
      (Ev.pct (pctOf p (st.completed + 1)) ::
        (if row.title = "" ∧ row.abstract = "" then [Ev.msg "missing, skipping"]
         else [Ev.msg "processing row", Ev.apiCall iter idx, Ev.msg "evaluation result"])) := by
  unfold processRecord emit
  split
  · split <;> simp
  · simp

/-! ### Result counting in a non-cancelled, uncapped run (C5, C10) -/

theorem innerLoop_results_len (p : WParams) (oracle : Nat → Nat → ℚ)
    (flag : Nat → Bool) (iter : Nat) (hf : ∀ k, flag k = false)
    (hmax : p.maxRecords = 0) :
    ∀ (rows : List Row) (idx : Nat) (st : WState),
      (innerLoop p oracle flag iter rows idx st).results.length =
        st.results.length +
          (if iter = 1 then rows.length else (rows.filter rowNonEmpty).length) := by
  intro rows
  induction rows with
  | nil => intro idx st; simp [innerLoop]
  | cons r rest ih =>
      intro idx st
      unfold innerLoop
      rw [readFlag_eq]
      simp only [hf, hmax]
      simp only [Nat.lt_irrefl, false_and, if_false, Bool.false_eq_true, if_false]
      rw [ih]
      rw [processRecord_results]
      by_cases he : r.title = "" ∧ r.abstract = ""
      · have hne : rowNonEmpty r = false := (rowNonEmpty_false_iff r).mpr he
        by_cases hi : iter = 1 <;>
          simp [he, hi, hne, List.filter_cons, List.length_append] <;> omega
      · have hne : rowNonEmpty r = true := by
          rcases Bool.eq_false_or_eq_true (rowNonEmpty r) with h | h
          · exact h
          · exact absurd ((rowNonEmpty_false_iff r).mp h) he
        by_cases hi : iter = 1 <;>
          simp [he, hi, hne, List.filter_cons, List.length_append] <;> omega

theorem outerLoop_results_len (p : WParams) (oracle : Nat → Nat → ℚ)
    (flag : Nat → Bool) (hf : ∀ k, flag k = false) (hmax : p.maxRecords = 0) :
    ∀ (rem iter : Nat) (st : WState), 2 ≤ iter →
      (outerLoop p oracle flag iter rem st).results.length =
        st.results.length + rem * (p.data.filter rowNonEmpty).length := by
  intro rem
  induction rem with
  | zero => intro iter st _; simp [outerLoop]
  | succ n ih =>
      intro iter st hiter
      unfold outerLoop
      rw [readFlag_eq]
      simp only [hf, Bool.false_eq_true, if_false]
      rw [ih (iter + 1) _ (by omega)]
      rw [innerLoop_results_len p oracle flag iter hf hmax]
      rw [if_neg (by omega), emit_results]
      ring

theorem setReads_results (st : WState) (n : Nat) :
    ({ st with reads := n } : WState).results = st.results := rfl

theorem setReads_relevant (st : WState) (n : Nat) :
    ({ st with reads := n } : WState).relevant = st.relevant := rfl

theorem setReads_completed (st : WState) (n : Nat) :
    ({ st with reads := n } : WState).completed = st.completed := rfl

theorem setReads_events (st : WState) (n : Nat) :
    ({ st with reads := n } : WState).events = st.events := rfl

theorem preState_results (p : WParams) : (preState p).results = [] := by
  unfold preState
  split <;> rfl

theorem preState_relevant (p : WParams) : (preState p).relevant = 0 := by
  unfold preState
  split <;> rfl

theorem preState_completed (p : WParams) : (preState p).completed = 0 := by
  unfold preState
  split <;> rfl

theorem preState_reads (p : WParams) : (preState p).reads = 0 := by
  unfold preState
  split <;> rfl

theorem outerLoop_step (p : WParams) (oracle : Nat → Nat → ℚ) (flag : Nat → Bool)
    (iter rem : Nat) (st : WState) :
    outerLoop p oracle flag iter (rem + 1) st =
      if flag st.reads then
        emit (Ev.msg "Processing cancelled.") { st with reads := st.reads + 1 }
      else
        outerLoop p oracle flag (iter + 1) rem
          (innerLoop p oracle flag iter p.data 0
            (emit (Ev.msg "starting iteration") { st with reads := st.reads + 1 })) := rfl

theorem innerLoop_step (p : WParams) (oracle : Nat → Nat → ℚ) (flag : Nat → Bool)
    (iter : Nat) (row : Row) (rest : List Row) (idx : Nat) (st : WState) :
    innerLoop p oracle flag iter (row :: rest) idx st =
      if flag st.reads then
        emit (Ev.msg "Processing cancelled.") { st with reads := st.reads + 1 }
      else if 0 < p.maxRecords ∧ p.maxRecords ≤ idx then
        emit (Ev.msg "maximum record count reached") { st with reads := st.reads + 1 }
      else
        innerLoop p oracle flag iter rest (idx + 1)
          (processRecord p oracle iter idx row { st with reads := st.reads + 1 }) := rfl

theorem runWorker_results_len (p : WParams) (oracle : Nat → Nat → ℚ)
    (flag : Nat → Bool) (hf : ∀ k, flag k = false) (hmax : p.maxRecords = 0)
    (hit : 1 ≤ p.iterations) (hne : p.data ≠ []) :
    (runWorker p oracle flag).results.length =
      p.data.length + (p.iterations - 1) * (p.data.filter rowNonEmpty).length := by
  unfold runWorker runTail saveTail
  rw [if_neg (by simpa using hne), hf]
  simp only [Bool.false_eq_true, if_false]
  rw [if_neg (by omega)]
  simp only [emit_results, setReads_results]
  rcases Nat.exists_eq_add_of_le hit with ⟨m, hm⟩
  rw [show p.iterations = m + 1 by omega, outerLoop_step, hf]
  simp only [Bool.false_eq_true, if_false]
  rw [outerLoop_results_len p oracle flag hf hmax m 2 _ (by omega),
    innerLoop_results_len p oracle flag 1 hf hmax]
  simp [emit_results, setReads_results, preState_results]

/-- In a never-cancelled run the completion signal is emitted, carrying
`len(processed_data) // iterations` and the relevant count. -/
theorem runWorker_complete_mem (p : WParams) (oracle : Nat → Nat → ℚ)
    (flag : Nat → Bool) (hf : ∀ k, flag k = false) (hit : 1 ≤ p.iterations)
    (hne : p.data ≠ []) :
    Ev.complete ((runWorker p oracle flag).results.length / p.iterations)
        (runWorker p oracle flag).relevant ∈ (runWorker p oracle flag).events := by
  unfold runWorker runTail saveTail
  rw [if_neg (by simpa using hne), hf]
  simp only [Bool.false_eq_true, if_false]
  rw [if_neg (by omega)]
  simp [emit_events, emit_results, emit_relevant, setReads_results, setReads_relevant,
    setReads_events]

/-- C10: at every non-cancelled completion the reported processed count
equals `floor(A / iterations)` for `A` the number of appended results; on
an uncapped dataset of nonempty records it equals the number of input
records; with at least one empty record and more than one iteration it
undercounts the records actually handled. -/
theorem c10_processed_count (p : WParams) (oracle : Nat → Nat → ℚ)
    (flag : Nat → Bool) (hf : ∀ k, flag k = false) (hit : 1 ≤ p.iterations)
    (hne : p.data ≠ []) :
    Ev.complete ((runWorker p oracle flag).results.length / p.iterations)
        (runWorker p oracle flag).relevant ∈ (runWorker p oracle flag).events ∧
    (p.maxRecords = 0 → (∀ r ∈ p.data, rowNonEmpty r = true) →
      (runWorker p oracle flag).results.length / p.iterations = p.data.length) ∧
    (p.maxRecords = 0 → 2 ≤ p.iterations → (∃ r ∈ p.data, rowNonEmpty r = false) →
      (runWorker p oracle flag).results.length / p.iterations < p.data.length) := by
  refine ⟨runWorker_complete_mem p oracle flag hf hit hne, ?_, ?_⟩
  · intro hmax hall
    rw [runWorker_results_len p oracle flag hf hmax hit hne,
      List.filter_eq_self.mpr hall]
    rcases Nat.exists_eq_add_of_le hit with ⟨m, hm⟩
    rw [show p.iterations = m + 1 by omega]
    have e1 : p.data.length + (m + 1 - 1) * p.data.length = (m + 1) * p.data.length := by
      simp only [Nat.add_sub_cancel]
      ring
    rw [e1, Nat.mul_div_cancel_left _ (by omega)]
  · intro hmax h2 hex
    rw [runWorker_results_len p oracle flag hf hmax hit hne]
    have hfle : (p.data.filter rowNonEmpty).length ≤ p.data.length :=
      List.length_filter_le _ _
    have hflt : (p.data.filter rowNonEmpty).length < p.data.length := by
      rcases hex with ⟨r, hr, hrf⟩
      have hnall : ¬(∀ a ∈ p.data, rowNonEmpty a = true) := by
        intro hall
        rw [hall r hr] at hrf
        cases hrf
      have hne2 : (p.data.filter rowNonEmpty).length ≠ p.data.length :=
        fun hEq => hnall (List.filter_length_eq_length.mp hEq)
      omega
    rcases Nat.exists_eq_add_of_le hit with ⟨m, hm⟩
    have hits : p.iterations = m + 1 := by omega
    have e1 : (m + 1) * (p.data.filter rowNonEmpty).length =
        m * (p.data.filter rowNonEmpty).length + (p.data.filter rowNonEmpty).length := by
      ring
    have key : p.data.length + (p.iterations - 1) * (p.data.filter rowNonEmpty).length =
        (p.data.length - (p.data.filter rowNonEmpty).length) +
          p.iterations * (p.data.filter rowNonEmpty).length := by
      rw [hits, e1]
      simp only [Nat.add_sub_cancel]
      generalize m * (p.data.filter rowNonEmpty).length = t
      omega
    rw [key, Nat.add_mul_div_left _ _ (by omega)]
    have hd : (p.data.length - (p.data.filter rowNonEmpty).length) / p.iterations <
        p.data.length - (p.data.filter rowNonEmpty).length :=
      Nat.div_lt_self (by omega) (by omega)
    omega

/-- Witness for C10 on the 3-record, one-empty, two-iteration dataset:
five results are appended, the completion reports 5 // 2 = 2 < 3. -/
theorem c10_processed_count_witness :
    Ev.complete ((runWorker paramsMix constScore6 neverCancel).results.length /
        paramsMix.iterations)
      (runWorker paramsMix constScore6 neverCancel).relevant ∈
      (runWorker paramsMix constScore6 neverCancel).events ∧
    (runWorker paramsMix constScore6 neverCancel).results.length /
        paramsMix.iterations < paramsMix.data.length := by
  have h := c10_processed_count paramsMix constScore6 neverCancel
    (fun _ => rfl) (by decide) (by decide)
  exact ⟨h.1, h.2.2 rfl (by decide) ⟨⟨"", ""⟩, by decide, rfl⟩⟩

/-- C5 counterexample: the catch-all in `get_relevance_score` converts an
unexpected exception to the score 0.0, not to the neutral default 4. -/
theorem c5_zero_default_counterexample :
    getRelevanceScore "openai" (Except.error "unexpected exception") = 0 ∧
    getRelevanceScore "openai" (Except.error "unexpected exception") ≠ 4 := by
  constructor <;> decide

/-- C5 (amended): an unexpected exception while scoring a record is
absorbed — the call returns (it yields score 0.0, not 4), and the batch
is unaffected: the number of results appended by a full run is a function
of the dataset and iteration count alone, whatever scores (including the
0.0 failure marker) the scoring calls produce, so the remaining records
are still processed. -/
theorem c5_exception_absorbed (provider msg : String) (p : WParams)
    (oracle : Nat → Nat → ℚ) (flag : Nat → Bool) (hf : ∀ k, flag k = false)
    (hmax : p.maxRecords = 0) (hit : 1 ≤ p.iterations) (hne : p.data ≠ []) :
    getRelevanceScore provider (.error msg) = 0 ∧
    (runWorker p oracle flag).results.length =
      p.data.length + (p.iterations - 1) * (p.data.filter rowNonEmpty).length := by
  constructor
  · unfold getRelevanceScore
    split <;> rfl
  · exact runWorker_results_len p oracle flag hf hmax hit hne

/-- Witness for the amended C5: the failing score is 0, and the mixed
3-record, 2-iteration run still appends all five results. -/
theorem c5_exception_absorbed_witness :
    getRelevanceScore "openai" (Except.error "boom") = 0 ∧
    (runWorker paramsMix constScore6 neverCancel).results.length = 5 := by
  have h := c5_exception_absorbed "openai" "boom" paramsMix constScore6 neverCancel
    (fun _ => rfl) rfl (by decide) (by decide)
  exact ⟨h.1, h.2.trans (by decide)⟩

/-! ### Empty records: skipped, and sent to no provider (C8) -/

theorem innerLoop_filter_high (p : WParams) (oracle : Nat → Nat → ℚ)
    (flag : Nat → Bool) (iter : Nat) (hf : ∀ k, flag k = false)
    (hmax : p.maxRecords = 0) (j : Nat) :
    ∀ (rows : List Row) (idx : Nat) (st : WState), j < idx →
      (innerLoop p oracle flag iter rows idx st).results.filter
          (fun r => r.srcIndex == j) =
        st.results.filter (fun r => r.srcIndex == j) := by
  intro rows
  induction rows with
  | nil => intro idx st _; simp [innerLoop]
  | cons r rest ih =>
      intro idx st hj
      rw [innerLoop_step, hf]
      simp only [Bool.false_eq_true, if_false]
      rw [if_neg (by omega)]
      rw [ih (idx + 1) _ (by omega)]
      rw [processRecord_results, List.filter_append]
      have hij : (idx == j) = false := by simp; omega
      split
      · split <;> simp [hij]
      · simp [hij]

theorem innerLoop_filter_at (p : WParams) (oracle : Nat → Nat → ℚ)
    (flag : Nat → Bool) (iter : Nat) (hf : ∀ k, flag k = false)
    (hmax : p.maxRecords = 0) (j : Nat) (rowJ : Row)
    (hrow : p.data[j]? = some rowJ) (he : rowJ.title = "" ∧ rowJ.abstract = "") :
    ∀ (rows : List Row) (idx : Nat) (st : WState),
      rows = p.data.drop idx → idx ≤ j →
      (innerLoop p oracle flag iter rows idx st).results.filter
          (fun r => r.srcIndex == j) =
        st.results.filter (fun r => r.srcIndex == j) ++
          (if iter = 1 then [⟨j, 1, 0, false⟩] else []) := by
  intro rows
  induction rows with
  | nil =>
      intro idx st hdrop hj
      exfalso
      have hlen : j < p.data.length := (List.getElem?_eq_some_iff.mp hrow).1
      have : p.data.length ≤ idx := by
        by_contra hlt
        rw [List.drop_eq_getElem_cons (by omega)] at hdrop
        cases hdrop
      omega
  | cons r rest ih =>
      intro idx st hdrop hj
      have hlen : j < p.data.length := (List.getElem?_eq_some_iff.mp hrow).1
      have hidx : idx < p.data.length := by
        by_contra hge
        rw [List.drop_eq_nil_iff.mpr (by omega)] at hdrop
        cases hdrop
      have hdrop2 := List.drop_eq_getElem_cons (l := p.data) (n := idx) hidx
      rw [← hdrop] at hdrop2
      have hr : r = p.data[idx] := by
        injection hdrop2 with h1 _
      have hrest : rest = p.data.drop (idx + 1) := by
        injection hdrop2 with _ h2
      rw [innerLoop_step, hf]
      simp only [Bool.false_eq_true, if_false]
      rw [if_neg (by omega)]
      by_cases heq : idx = j
      · subst heq
        have hrj : r = rowJ := by
          rw [hr]
          have := List.getElem?_eq_some_iff.mp hrow
          rcases this with ⟨h1, h2⟩
          exact h2
        rw [innerLoop_filter_high p oracle flag iter hf hmax idx rest (idx + 1) _
          (by omega)]
        rw [processRecord_results, List.filter_append]
        rw [if_pos (by rw [hrj]; exact he)]
        have hjj : (idx == idx) = true := by simp
        split
        · rename_i hi
          subst hi
          simp
        · simp
      · rw [ih (idx + 1) _ hrest (by omega)]
        rw [processRecord_results, List.filter_append]
        have hij : (idx == j) = false := by simp; omega
        split
        · split <;> simp [hij]
        · simp [hij]

theorem outerLoop_filter_high_iter (p : WParams) (oracle : Nat → Nat → ℚ)
    (flag : Nat → Bool) (hf : ∀ k, flag k = false) (hmax : p.maxRecords = 0)
    (j : Nat) (rowJ : Row) (hrow : p.data[j]? = some rowJ)
    (he : rowJ.title = "" ∧ rowJ.abstract = "") :
    ∀ (rem iter : Nat) (st : WState), 2 ≤ iter →
      (outerLoop p oracle flag iter rem st).results.filter
          (fun r => r.srcIndex == j) =
        st.results.filter (fun r => r.srcIndex == j) := by
  intro rem
  induction rem with
  | zero => intro iter st _; simp [outerLoop]
  | succ n ih =>
      intro iter st hiter
      rw [outerLoop_step, hf]
      simp only [Bool.false_eq_true, if_false]
      rw [ih (iter + 1) _ (by omega)]
      rw [innerLoop_filter_at p oracle flag iter hf hmax j rowJ hrow he p.data 0 _
        (List.drop_zero p.data).symm (by omega)]
      rw [if_neg (by omega), emit_results]
      simp

theorem preState_no_apiCall (p : WParams) (it x : Nat) :
    Ev.apiCall it x ∉ (preState p).events := by
  unfold preState
  split <;> simp [emit]

theorem innerLoop_apiCall_inv (p : WParams) (oracle : Nat → Nat → ℚ)
    (flag : Nat → Bool) (iter j : Nat) (rowJ : Row)
    (hrow : p.data[j]? = some rowJ) (he : rowJ.title = "" ∧ rowJ.abstract = "") :
    ∀ (rows : List Row) (idx : Nat) (st : WState), rows = p.data.drop idx →
      (∀ it, Ev.apiCall it j ∉ st.events) →
      ∀ it, Ev.apiCall it j ∉ (innerLoop p oracle flag iter rows idx st).events := by
  intro rows
  induction rows with
  | nil => intro idx st _ hst it; simpa [innerLoop] using hst it
  | cons r rest ih =>
      intro idx st hdrop hst it
      have hidx : idx < p.data.length := by
        by_contra hge
        rw [List.drop_eq_nil_iff.mpr (by omega)] at hdrop
        cases hdrop
      have hdrop2 := List.drop_eq_getElem_cons (l := p.data) (n := idx) hidx
      rw [← hdrop] at hdrop2
      have hr : r = p.data[idx] := by injection hdrop2 with h1 _
      have hrest : rest = p.data.drop (idx + 1) := by injection hdrop2 with _ h2
      rw [innerLoop_step]
      split
      · simp only [emit_events, setReads_events, List.mem_append, List.mem_singleton]
        push_neg
        exact ⟨hst it, by simp⟩
      · split
        · simp only [emit_events, setReads_events, List.mem_append, List.mem_singleton]
          push_neg
          exact ⟨hst it, by simp⟩
        · refine ih (idx + 1) _ hrest ?_ it
          intro it2
          rw [processRecord_events, setReads_events]
          simp only [List.mem_append, List.mem_cons]
          push_neg
          refine ⟨hst it2, by simp, ?_⟩
          by_cases heq : idx = j
          · subst heq
            have hrj : r = rowJ := by
              rw [hr]
              exact (List.getElem?_eq_some_iff.mp hrow).2
            rw [if_pos (by rw [hrj]; exact he)]
            simp
          · split
            · simp
            · simp only [List.mem_cons, List.not_mem_nil]
              push_neg
              refine ⟨by simp, ?_, by simp, by simp⟩
              intro hc
              rw [Ev.apiCall.injEq] at hc
              exact heq hc.2.symm
  
theorem outerLoop_apiCall_inv (p : WParams) (oracle : Nat → Nat → ℚ)
    (flag : Nat → Bool) (j : Nat) (rowJ : Row)
    (hrow : p.data[j]? = some rowJ) (he : rowJ.title = "" ∧ rowJ.abstract = "") :
    ∀ (rem iter : Nat) (st : WState),
      (∀ it, Ev.apiCall it j ∉ st.events) →
      ∀ it, Ev.apiCall it j ∉ (outerLoop p oracle flag iter rem st).events := by
  intro rem
  induction rem with
  | zero => intro iter st hst it; simpa [outerLoop] using hst it
  | succ n ih =>
      intro iter st hst it
      rw [outerLoop_step]
      split
      · simp only [emit_events, setReads_events, List.mem_append, List.mem_singleton]
        push_neg
        exact ⟨hst it, by simp⟩
      · refine ih (iter + 1) _ ?_ it
        refine innerLoop_apiCall_inv p oracle flag iter j rowJ hrow he p.data 0 _
          (List.drop_zero p.data).symm ?_
        intro it2
        simp only [emit_events, setReads_events, List.mem_append, List.mem_singleton]
        push_neg
        exact ⟨hst it2, by simp⟩

/-- C8: a record with empty title and empty abstract is never sent to a
provider; in a full (never-cancelled, uncapped) run it contributes
exactly one result — score 0, not relevant, iteration 1 — and nothing in
iterations 2..N. -/
theorem c8_empty_record (p : WParams) (oracle : Nat → Nat → ℚ)
    (flag : Nat → Bool) (hf : ∀ k, flag k = false) (hmax : p.maxRecords = 0)
    (hit : 1 ≤ p.iterations) (j : Nat) (rowJ : Row)
    (hrow : p.data[j]? = some rowJ) (he : rowJ.title = "" ∧ rowJ.abstract = "") :
    (∀ it, Ev.apiCall it j ∉ (runWorker p oracle flag).events) ∧
    (runWorker p oracle flag).results.filter (fun r => r.srcIndex == j) =
      [⟨j, 1, 0, false⟩] := by
  have hlen : j < p.data.length := (List.getElem?_eq_some_iff.mp hrow).1
  have hne0 : ¬p.data.length = 0 := by omega
  have houter : ∀ it, Ev.apiCall it j ∉
      (outerLoop p oracle flag 1 p.iterations (preState p)).events :=
    outerLoop_apiCall_inv p oracle flag j rowJ hrow he p.iterations 1 (preState p)
      (fun it => preState_no_apiCall p it j)
  constructor
  · intro it
    unfold runWorker runTail saveTail
    rw [if_neg hne0, hf]
    simp only [Bool.false_eq_true, if_false]
    rw [if_neg (by omega)]
    simp only [emit_events, setReads_events, List.mem_append, List.mem_singleton]
    push_neg
    exact ⟨⟨⟨⟨⟨houter it, by simp⟩, by simp⟩, by simp⟩, by simp⟩, by simp⟩
  · unfold runWorker runTail saveTail
    rw [if_neg hne0, hf]
    simp only [Bool.false_eq_true, if_false]
    rw [if_neg (by omega)]
    simp only [emit_results, setReads_results]
    rcases Nat.exists_eq_add_of_le hit with ⟨m, hm⟩
    rw [show p.iterations = m + 1 by omega, outerLoop_step, hf]
    simp only [Bool.false_eq_true, if_false]
    rw [outerLoop_filter_high_iter p oracle flag hf hmax j rowJ hrow he m 2 _
      (by omega)]
    rw [innerLoop_filter_at p oracle flag 1 hf hmax j rowJ hrow he p.data 0 _
      (List.drop_zero p.data).symm (by omega)]
    simp [emit_results, setReads_results, preState_results]

/-- Witness for C8 on the mixed dataset: record 1 (empty/empty) is
provider-free and contributes only the iteration-1 zero row. -/
theorem c8_empty_record_witness :
    (Ev.apiCall 1 1 ∉ (runWorker paramsMix constScore6 neverCancel).events) ∧
    (runWorker paramsMix constScore6 neverCancel).results.filter
      (fun r => r.srcIndex == 1) = [⟨1, 1, 0, false⟩] := by
  have h := c8_empty_record paramsMix constScore6 neverCancel (fun _ => rfl) rfl
    (by decide) 1 ⟨"", ""⟩ rfl ⟨rfl, rfl⟩
  exact ⟨h.1 1, h.2⟩

/-! ### Progress percentages: monotone, bounded, floor-formula (C7) -/

theorem pcts_append (a b : List Ev) : pcts (a ++ b) = pcts a ++ pcts b := by
  simp [pcts]

theorem natDiv_le_natDiv (a b a' b' : Nat) (hb : 0 < b) (hb' : 0 < b')
    (h : a * b' ≤ a' * b) : a / b ≤ a' / b' := by
  by_contra hlt
  push_neg at hlt
  have h1 : a / b * b ≤ a := Nat.div_mul_le_self a b
  have h2 : a' < (a' / b' + 1) * b' := by
    have hdm := Nat.div_add_mod a' b'
    have hml := Nat.mod_lt a' hb'
    have he : (a' / b' + 1) * b' = b' * (a' / b') + b' := by ring
    omega
  have h3 : a' / b' + 1 ≤ a / b := hlt
  have h4 : a' * b < (a / b) * (b' * b) :=
    calc a' * b < ((a' / b' + 1) * b') * b :=
          Nat.mul_lt_mul_of_lt_of_le h2 (le_refl b) hb
      _ ≤ ((a / b) * b') * b := Nat.mul_le_mul_right b (Nat.mul_le_mul_right b' h3)
      _ = (a / b) * (b' * b) := by ring
  have h5 : (a / b) * (b' * b) = ((a / b) * b) * b' := by ring
  have h6 : ((a / b) * b) * b' ≤ a * b' := Nat.mul_le_mul_right b' h1
  have h7 : a' * b < a * b' := by
    rw [h5] at h4
    exact lt_of_lt_of_le h4 h6
  exact absurd h7 (not_lt.mpr h)

theorem rhe_bounds (n d : Nat) (hd : 0 < d) :
    2 * n ≤ 2 * (d * rhe n d) + d ∧ 2 * (d * rhe n d) ≤ 2 * n + d := by
  have hdm := Nat.div_add_mod n d
  have hml := Nat.mod_lt n hd
  unfold rhe
  split
  · omega
  · split
    · have he : d * (n / d + 1) = d * (n / d) + d := by ring
      omega
    · split
      · omega
      · have he : d * (n / d + 1) = d * (n / d) + d := by ring
        omega

theorem rhe_cases (n d : Nat) : rhe n d = n / d ∨ rhe n d = n / d + 1 := by
  unfold rhe
  split
  · exact Or.inl rfl
  · split
    · exact Or.inr rfl
    · split
      · exact Or.inl rfl
      · exact Or.inr rfl

theorem rhe_up_char (n d : Nat) (h : rhe n d = n / d + 1) :
    d < 2 * (n % d) ∨ (2 * (n % d) = d ∧ (n / d) % 2 = 1) := by
  unfold rhe at h
  split at h
  · omega
  · split at h
    · left
      assumption
    · split at h
      · omega
      · right
        omega

theorem rhe_down_char (n d : Nat) (h : rhe n d = n / d) :
    2 * (n % d) < d ∨ (2 * (n % d) = d ∧ (n / d) % 2 = 0) := by
  unfold rhe at h
  split at h
  · left
    assumption
  · split at h
    · omega
    · split at h
      · right
        omega
      · omega

theorem cross_contra {n d n' d' t : Nat} (hd : 0 < d) (hd' : 0 < d')
    (hval : n * d' ≤ n' * d)
    (hL : (2 * t + 1) * d ≤ 2 * n) (hR : 2 * n' ≤ (2 * t + 1) * d')
    (hstrict : (2 * t + 1) * d < 2 * n ∨ 2 * n' < (2 * t + 1) * d') : False := by
  have h1 : 2 * n * d' ≤ 2 * n' * d := by
    calc 2 * n * d' = 2 * (n * d') := by ring
      _ ≤ 2 * (n' * d) := Nat.mul_le_mul_left 2 hval
      _ = 2 * n' * d := by ring
  rcases hstrict with hs | hs
  · have h2 : 2 * n' * d ≤ ((2 * t + 1) * d') * d := Nat.mul_le_mul_right d hR
    have h3 : ((2 * t + 1) * d) * d' < (2 * n) * d' :=
      Nat.mul_lt_mul_of_lt_of_le hs (le_refl d') hd'
    have he : ((2 * t + 1) * d') * d = ((2 * t + 1) * d) * d' := by ring
    omega
  · have h2 : 2 * n' * d < ((2 * t + 1) * d') * d :=
      Nat.mul_lt_mul_of_lt_of_le hs (le_refl d) hd
    have h3 : ((2 * t + 1) * d) * d' ≤ (2 * n) * d' := Nat.mul_le_mul_right d' hL
    have he : ((2 * t + 1) * d') * d = ((2 * t + 1) * d) * d' := by ring
    omega

theorem rhe_mono (n d n' d' : Nat) (hd : 0 < d) (hd' : 0 < d')
    (h : n * d' ≤ n' * d) : rhe n d ≤ rhe n' d' := by
  have htt : n / d ≤ n' / d' := natDiv_le_natDiv n d n' d' hd hd' h
  have hdm := Nat.div_add_mod n d
  have hdm' := Nat.div_add_mod n' d'
  rcases rhe_cases n d with hL | hL <;> rcases rhe_cases n' d' with hR | hR <;>
    rw [hL, hR]
  · exact htt
  · omega
  · rcases Nat.lt_or_ge (n / d) (n' / d') with hlt | hge
    · omega
    · exfalso
      have heq : n / d = n' / d' := by omega
      have hup := rhe_up_char n d hL
      have hdn := rhe_down_char n' d' hR
      rcases hup with hup | ⟨htie, hodd⟩ <;> rcases hdn with hdn | ⟨htie', heven⟩
      · refine cross_contra (t := n / d) hd hd' h ?_ ?_ (Or.inl ?_)
        · have he : (2 * (n / d) + 1) * d = 2 * (d * (n / d)) + d := by ring
          omega
        · have he : (2 * (n / d) + 1) * d' = 2 * (d' * (n' / d')) + d' := by
            rw [heq]; ring
          omega
        · have he : (2 * (n / d) + 1) * d = 2 * (d * (n / d)) + d := by ring
          omega
      · refine cross_contra (t := n / d) hd hd' h ?_ ?_ (Or.inl ?_)
        · have he : (2 * (n / d) + 1) * d = 2 * (d * (n / d)) + d := by ring
          omega
        · have he : (2 * (n / d) + 1) * d' = 2 * (d' * (n' / d')) + d' := by
            rw [heq]; ring
          omega
        · have he : (2 * (n / d) + 1) * d = 2 * (d * (n / d)) + d := by ring
          omega
      · refine cross_contra (t := n / d) hd hd' h ?_ ?_ (Or.inr ?_)
        · have he : (2 * (n / d) + 1) * d = 2 * (d * (n / d)) + d := by ring
          omega
        · have he : (2 * (n / d) + 1) * d' = 2 * (d' * (n' / d')) + d' := by
            rw [heq]; ring
          omega
        · have he : (2 * (n / d) + 1) * d' = 2 * (d' * (n' / d')) + d' := by
            rw [heq]; ring
          omega
      · omega
  · omega

theorem rhe_le_val (n d : Nat) (hd : 0 < d) : (rhe n d : ℚ) ≤ (n : ℚ) / d + 1 / 2 := by
  have h := (rhe_bounds n d hd).2
  have hdq : (0 : ℚ) < d := by exact_mod_cast hd
  rw [show (n : ℚ) / d + 1 / 2 = (2 * n + d) / (2 * d) by field_simp; ring]
  rw [le_div_iff₀ (by positivity)]
  have h' : ((2 * (d * rhe n d) : ℕ) : ℚ) ≤ ((2 * n + d : ℕ) : ℚ) := by exact_mod_cast h
  push_cast at h'
  nlinarith [h']

theorem rhe_ge_val (n d : Nat) (hd : 0 < d) : (n : ℚ) / d - 1 / 2 ≤ (rhe n d : ℚ) := by
  have h := (rhe_bounds n d hd).1
  have hdq : (0 : ℚ) < d := by exact_mod_cast hd
  rw [show (n : ℚ) / d - 1 / 2 = (2 * n - d) / (2 * d) by field_simp; ring]
  rw [div_le_iff₀ (by positivity)]
  have h' : ((2 * n : ℕ) : ℚ) ≤ ((2 * (d * rhe n d) + d : ℕ) : ℚ) := by exact_mod_cast h
  push_cast at h'
  nlinarith [h']

theorem rhe_le_of_val_lt (n d : Nat) (hd : 0 < d) (B : ℕ)
    (h : (n : ℚ) / d < B) : rhe n d ≤ B := by
  have h1 := rhe_le_val n d hd
  have h2 : (rhe n d : ℚ) < (B : ℚ) + 1 := by linarith
  have h3 : rhe n d < B + 1 := by exact_mod_cast h2
  omega

theorem le_rhe_of_le_val (n d : Nat) (hd : 0 < d) (B : ℕ)
    (h : (B : ℚ) ≤ (n : ℚ) / d) : B ≤ rhe n d := by
  have h1 := rhe_ge_val n d hd
  have h2 : (B : ℚ) < (rhe n d : ℚ) + 1 := by linarith
  have h3 : B < rhe n d + 1 := by exact_mod_cast h2
  omega

theorem log2f_spec : ∀ (fuel n : Nat), 1 ≤ n → n ≤ fuel →
    2 ^ log2f fuel n ≤ n ∧ n < 2 ^ (log2f fuel n + 1) := by
  intro fuel
  induction fuel with
  | zero => intro n h1 h2; omega
  | succ f ih =>
      intro n h1 h2
      unfold log2f
      split
      · rename_i h3
        have ih2 := ih (n / 2) (by omega) (by omega)
        have e1 : 2 ^ (log2f f (n / 2) + 1) = 2 * 2 ^ log2f f (n / 2) := by ring
        have e2 : 2 ^ (log2f f (n / 2) + 1 + 1) = 2 * 2 ^ (log2f f (n / 2) + 1) := by
          ring
        omega
      · rename_i h3
        simp only [pow_zero, pow_one]
        omega

theorem natLog2_spec (n : Nat) (h : 1 ≤ n) :
    2 ^ natLog2 n ≤ n ∧ n < 2 ^ (natLog2 n + 1) :=
  log2f_spec n n h (le_refl n)

theorem pow2LeQ_iff (k : Int) (n d : Nat) (hd : 0 < d) :
    pow2LeQ k n d = true ↔ (2 : ℚ) ^ k ≤ (n : ℚ) / d := by
  have hdq : (0 : ℚ) < d := by exact_mod_cast hd
  unfold pow2LeQ
  split
  · rename_i hk
    rw [decide_eq_true_iff]
    rw [show (2 : ℚ) ^ k = ((2 : ℚ) ^ k.toNat : ℚ) by
      rw [← zpow_natCast (2 : ℚ) k.toNat]
      congr 1
      omega]
    rw [le_div_iff₀ hdq]
    constructor
    · intro hle
      calc (2 : ℚ) ^ k.toNat * d = ((d * 2 ^ k.toNat : ℕ) : ℚ) := by push_cast; ring
        _ ≤ (n : ℚ) := by exact_mod_cast hle
    · intro hle
      have : ((d * 2 ^ k.toNat : ℕ) : ℚ) ≤ (n : ℚ) := by
        calc ((d * 2 ^ k.toNat : ℕ) : ℚ) = (2 : ℚ) ^ k.toNat * d := by push_cast; ring
          _ ≤ (n : ℚ) := hle
      exact_mod_cast this
  · rename_i hk
    rw [decide_eq_true_iff]
    push_neg at hk
    rw [show (2 : ℚ) ^ k = 1 / ((2 : ℚ) ^ (-k).toNat : ℚ) by
      rw [← zpow_natCast (2 : ℚ) (-k).toNat, one_div, ← zpow_neg]
      congr 1
      omega]
    rw [div_le_div_iff₀ (by positivity) hdq]
    constructor
    · intro hle
      calc (1 : ℚ) * d = ((d : ℕ) : ℚ) := by ring
        _ ≤ ((n * 2 ^ (-k).toNat : ℕ) : ℚ) := by exact_mod_cast hle
        _ = (n : ℚ) * 2 ^ (-k).toNat := by push_cast; ring
    · intro hle
      have : ((d : ℕ) : ℚ) ≤ ((n * 2 ^ (-k).toNat : ℕ) : ℚ) := by
        calc ((d : ℕ) : ℚ) = (1 : ℚ) * d := by ring
          _ ≤ (n : ℚ) * 2 ^ (-k).toNat := hle
          _ = ((n * 2 ^ (-k).toNat : ℕ) : ℚ) := by push_cast; ring
      exact_mod_cast this

theorem ilog2Q_spec (n d : Nat) (hn : 0 < n) (hd : 0 < d) :
    (2 : ℚ) ^ ilog2Q n d ≤ (n : ℚ) / d ∧ (n : ℚ) / d < (2 : ℚ) ^ (ilog2Q n d + 1) := by
  have hdq : (0 : ℚ) < d := by exact_mod_cast hd
  have hnn := natLog2_spec n hn
  have hnd := natLog2_spec d hd
  have hub : (n : ℚ) / d < (2 : ℚ) ^ ((natLog2 n : Int) - (natLog2 d : Int) + 1) := by
    have h1 : (n : ℚ) / d < (2 : ℚ) ^ (natLog2 n + 1) / (2 : ℚ) ^ natLog2 d := by
      rw [div_lt_div_iff₀ hdq (by positivity)]
      have h2 : n * 2 ^ natLog2 d < 2 ^ (natLog2 n + 1) * d := by
        calc n * 2 ^ natLog2 d < 2 ^ (natLog2 n + 1) * 2 ^ natLog2 d :=
              Nat.mul_lt_mul_of_lt_of_le hnn.2 (le_refl _) (by positivity)
          _ ≤ 2 ^ (natLog2 n + 1) * d := Nat.mul_le_mul_left _ hnd.1
      calc (n : ℚ) * 2 ^ natLog2 d = ((n * 2 ^ natLog2 d : ℕ) : ℚ) := by push_cast; ring
        _ < ((2 ^ (natLog2 n + 1) * d : ℕ) : ℚ) := by exact_mod_cast h2
        _ = (2 : ℚ) ^ (natLog2 n + 1) * d := by push_cast; ring
    calc (n : ℚ) / d < (2 : ℚ) ^ (natLog2 n + 1) / (2 : ℚ) ^ natLog2 d := h1
      _ = (2 : ℚ) ^ ((natLog2 n : Int) - (natLog2 d : Int) + 1) := by
          rw [← zpow_natCast (2 : ℚ) (natLog2 n + 1), ← zpow_natCast (2 : ℚ) (natLog2 d),
            ← zpow_sub₀ (by norm_num : (2 : ℚ) ≠ 0)]
          congr 1
          push_cast
          ring
  have hlb : (2 : ℚ) ^ ((natLog2 n : Int) - (natLog2 d : Int) - 1) ≤ (n : ℚ) / d := by
    have h1 : (2 : ℚ) ^ natLog2 n / (2 : ℚ) ^ (natLog2 d + 1) ≤ (n : ℚ) / d := by
      rw [div_le_div_iff₀ (by positivity) hdq]
      have h2 : 2 ^ natLog2 n * d ≤ n * 2 ^ (natLog2 d + 1) := by
        calc 2 ^ natLog2 n * d ≤ n * d := Nat.mul_le_mul_right d hnn.1
          _ ≤ n * 2 ^ (natLog2 d + 1) := Nat.mul_le_mul_left n (by omega)
      calc (2 : ℚ) ^ natLog2 n * d = ((2 ^ natLog2 n * d : ℕ) : ℚ) := by push_cast; ring
        _ ≤ ((n * 2 ^ (natLog2 d + 1) : ℕ) : ℚ) := by exact_mod_cast h2
        _ = (n : ℚ) * 2 ^ (natLog2 d + 1) := by push_cast; ring
    calc (2 : ℚ) ^ ((natLog2 n : Int) - (natLog2 d : Int) - 1)
        = (2 : ℚ) ^ natLog2 n / (2 : ℚ) ^ (natLog2 d + 1) := by
          rw [← zpow_natCast (2 : ℚ) (natLog2 n), ← zpow_natCast (2 : ℚ) (natLog2 d + 1),
            ← zpow_sub₀ (by norm_num : (2 : ℚ) ≠ 0)]
          congr 1
          push_cast
          ring
      _ ≤ (n : ℚ) / d := h1
  unfold ilog2Q
  split
  · rename_i hp
    constructor
    · exact (pow2LeQ_iff _ n d hd).mp hp
    · exact hub
  · rename_i hp
    constructor
    · exact hlb
    · rw [show (natLog2 n : Int) - (natLog2 d : Int) - 1 + 1 =
        (natLog2 n : Int) - (natLog2 d : Int) by ring]
      have := (not_iff_not.mpr (pow2LeQ_iff ((natLog2 n : Int) - (natLog2 d : Int)) n d hd)).mp
        (by simpa using hp)
      push_neg at this
      exact this

theorem natPow2_cast_zpow (E : ℕ) : ((2 ^ E : ℕ) : ℚ) = (2 : ℚ) ^ (E : ℤ) := by
  rw [Nat.cast_pow, Nat.cast_ofNat, zpow_natCast]

theorem num_toNat_div_den (q : ℚ) (hq : 0 < q.num) :
    (q.num.toNat : ℚ) / (q.den : ℚ) = q := by
  have h0 : ((q.num.toNat : ℕ) : ℚ) = ((q.num : ℤ) : ℚ) := by
    exact_mod_cast Int.toNat_of_nonneg (le_of_lt hq)
  rw [h0]
  exact Rat.num_div_den q

theorem rnd53_nonneg (q : ℚ) : 0 ≤ rnd53 q := by
  unfold rnd53
  split
  · exact le_refl 0
  · split
    · rw [Rat.mkRat_one]
      positivity
    · rw [Rat.mkRat_eq_div]
      positivity

theorem rnd53_val_pos (q : ℚ) (hq : 0 < q.num)
    (he : 0 ≤ ilog2Q q.num.toNat q.den - 52) :
    rnd53 q = ((rhe q.num.toNat
        (q.den * 2 ^ (ilog2Q q.num.toNat q.den - 52).toNat) *
      2 ^ (ilog2Q q.num.toNat q.den - 52).toNat : ℕ) : ℚ) := by
  unfold rnd53
  rw [if_neg (by omega), if_pos he, Rat.mkRat_one]
  push_cast
  ring

theorem rnd53_val_neg (q : ℚ) (hq : 0 < q.num)
    (he : ¬ 0 ≤ ilog2Q q.num.toNat q.den - 52) :
    rnd53 q = ((rhe (q.num.toNat * 2 ^ (-(ilog2Q q.num.toNat q.den - 52)).toNat)
        q.den : ℕ) : ℚ) / ((2 ^ (-(ilog2Q q.num.toNat q.den - 52)).toNat : ℕ) : ℚ) := by
  unfold rnd53
  rw [if_neg (by omega), if_neg he, Rat.mkRat_eq_div]
  push_cast
  ring

theorem rnd53_bounds (q : ℚ) (hq : 0 < q.num) :
    (2 : ℚ) ^ ilog2Q q.num.toNat q.den ≤ rnd53 q ∧
      rnd53 q ≤ (2 : ℚ) ^ (ilog2Q q.num.toNat q.den + 1) := by
  have hn1 : 0 < q.num.toNat := by omega
  have hd1 : 0 < q.den := Nat.pos_of_ne_zero q.den_nz
  have hspec := ilog2Q_spec q.num.toNat q.den hn1 hd1
  rw [num_toNat_div_den q hq] at hspec
  by_cases he : 0 ≤ ilog2Q q.num.toNat q.den - 52
  · rw [rnd53_val_pos q hq he]
    have hE : (((ilog2Q q.num.toNat q.den - 52).toNat : ℕ) : ℤ) =
        ilog2Q q.num.toNat q.den - 52 := Int.toNat_of_nonneg he
    have hD1 : 0 < q.den * 2 ^ (ilog2Q q.num.toNat q.den - 52).toNat := by positivity
    have hval : (q.num.toNat : ℚ) /
        ((q.den * 2 ^ (ilog2Q q.num.toNat q.den - 52).toNat : ℕ) : ℚ) =
        q / (2 : ℚ) ^ (ilog2Q q.num.toNat q.den - 52) := by
      rw [Nat.cast_mul, natPow2_cast_zpow, hE, div_mul_eq_div_div,
        num_toNat_div_den q hq]
    constructor
    · have hm : 2 ^ 52 ≤ rhe q.num.toNat
          (q.den * 2 ^ (ilog2Q q.num.toNat q.den - 52).toNat) := by
        apply le_rhe_of_le_val _ _ hD1
        rw [hval, le_div_iff₀ (by positivity), natPow2_cast_zpow,
          ← zpow_add₀ (by norm_num : (2:ℚ) ≠ 0),
          show ((52 : ℕ) : ℤ) + (ilog2Q q.num.toNat q.den - 52) =
            ilog2Q q.num.toNat q.den by omega]
        exact hspec.1
      have hNat : 2 ^ (52 + (ilog2Q q.num.toNat q.den - 52).toNat) ≤
          rhe q.num.toNat (q.den * 2 ^ (ilog2Q q.num.toNat q.den - 52).toNat) *
            2 ^ (ilog2Q q.num.toNat q.den - 52).toNat := by
        rw [pow_add]
        exact Nat.mul_le_mul_right _ hm
      calc (2 : ℚ) ^ ilog2Q q.num.toNat q.den =
          ((2 ^ (52 + (ilog2Q q.num.toNat q.den - 52).toNat) : ℕ) : ℚ) := by
            rw [natPow2_cast_zpow]
            congr 1
            omega
        _ ≤ _ := Nat.cast_le.mpr hNat
    · have hm : rhe q.num.toNat
          (q.den * 2 ^ (ilog2Q q.num.toNat q.den - 52).toNat) ≤ 2 ^ 53 := by
        apply rhe_le_of_val_lt _ _ hD1
        rw [hval, div_lt_iff₀ (by positivity), natPow2_cast_zpow,
          ← zpow_add₀ (by norm_num : (2:ℚ) ≠ 0),
          show ((53 : ℕ) : ℤ) + (ilog2Q q.num.toNat q.den - 52) =
            ilog2Q q.num.toNat q.den + 1 by omega]
        exact hspec.2
      have hNat : rhe q.num.toNat (q.den * 2 ^ (ilog2Q q.num.toNat q.den - 52).toNat) *
          2 ^ (ilog2Q q.num.toNat q.den - 52).toNat ≤
          2 ^ (53 + (ilog2Q q.num.toNat q.den - 52).toNat) := by
        rw [pow_add]
        exact Nat.mul_le_mul_right _ hm
      calc ((rhe q.num.toNat (q.den * 2 ^ (ilog2Q q.num.toNat q.den - 52).toNat) *
            2 ^ (ilog2Q q.num.toNat q.den - 52).toNat : ℕ) : ℚ) ≤
          ((2 ^ (53 + (ilog2Q q.num.toNat q.den - 52).toNat) : ℕ) : ℚ) :=
            Nat.cast_le.mpr hNat
        _ = (2 : ℚ) ^ (ilog2Q q.num.toNat q.den + 1) := by
            rw [natPow2_cast_zpow]
            congr 1
            omega
  · rw [rnd53_val_neg q hq he]
    have hM : (((-(ilog2Q q.num.toNat q.den - 52)).toNat : ℕ) : ℤ) =
        -(ilog2Q q.num.toNat q.den - 52) := Int.toNat_of_nonneg (by omega)
    have hval : ((q.num.toNat * 2 ^ (-(ilog2Q q.num.toNat q.den - 52)).toNat : ℕ) : ℚ) /
        (q.den : ℚ) = q * (2 : ℚ) ^ (-(ilog2Q q.num.toNat q.den - 52)) := by
      rw [Nat.cast_mul, natPow2_cast_zpow, hM, mul_div_right_comm,
        num_toNat_div_den q hq]
    constructor
    · have hm : 2 ^ 52 ≤ rhe
          (q.num.toNat * 2 ^ (-(ilog2Q q.num.toNat q.den - 52)).toNat) q.den := by
        apply le_rhe_of_le_val _ _ hd1
        rw [hval]
        calc ((2 ^ 52 : ℕ) : ℚ) =
            (2 : ℚ) ^ ilog2Q q.num.toNat q.den *
              (2 : ℚ) ^ (-(ilog2Q q.num.toNat q.den - 52)) := by
              rw [natPow2_cast_zpow, ← zpow_add₀ (by norm_num : (2:ℚ) ≠ 0)]
              congr 1
              omega
          _ ≤ q * (2 : ℚ) ^ (-(ilog2Q q.num.toNat q.den - 52)) :=
              mul_le_mul_of_nonneg_right hspec.1 (by positivity)
      rw [le_div_iff₀ (by positivity)]
      calc (2 : ℚ) ^ ilog2Q q.num.toNat q.den *
            ((2 ^ (-(ilog2Q q.num.toNat q.den - 52)).toNat : ℕ) : ℚ) =
          ((2 ^ 52 : ℕ) : ℚ) := by
            rw [natPow2_cast_zpow, hM, ← zpow_add₀ (by norm_num : (2:ℚ) ≠ 0),
              natPow2_cast_zpow]
            congr 1
            omega
        _ ≤ _ := Nat.cast_le.mpr hm
    · have hm : rhe
          (q.num.toNat * 2 ^ (-(ilog2Q q.num.toNat q.den - 52)).toNat) q.den ≤
            2 ^ 53 := by
        apply rhe_le_of_val_lt _ _ hd1
        rw [hval]
        calc q * (2 : ℚ) ^ (-(ilog2Q q.num.toNat q.den - 52)) <
            (2 : ℚ) ^ (ilog2Q q.num.toNat q.den + 1) *
              (2 : ℚ) ^ (-(ilog2Q q.num.toNat q.den - 52)) :=
              mul_lt_mul_of_pos_right hspec.2 (by positivity)
          _ = ((2 ^ 53 : ℕ) : ℚ) := by
              rw [natPow2_cast_zpow, ← zpow_add₀ (by norm_num : (2:ℚ) ≠ 0)]
              congr 1
              omega
      rw [div_le_iff₀ (by positivity)]
      calc ((rhe (q.num.toNat * 2 ^ (-(ilog2Q q.num.toNat q.den - 52)).toNat)
            q.den : ℕ) : ℚ) ≤ ((2 ^ 53 : ℕ) : ℚ) := Nat.cast_le.mpr hm
        _ = (2 : ℚ) ^ (ilog2Q q.num.toNat q.den + 1) *
            ((2 ^ (-(ilog2Q q.num.toNat q.den - 52)).toNat : ℕ) : ℚ) := by
            rw [natPow2_cast_zpow, natPow2_cast_zpow, hM,
              ← zpow_add₀ (by norm_num : (2:ℚ) ≠ 0)]
            congr 1
            omega

theorem rnd53_mono (q q' : ℚ) (h : q ≤ q') : rnd53 q ≤ rnd53 q' := by
  by_cases hq : q.num ≤ 0
  · rw [show rnd53 q = 0 by unfold rnd53; rw [if_pos hq]]
    exact rnd53_nonneg q'
  · push_neg at hq
    have hq' : 0 < q'.num := by
      have h1 : 0 < q := Rat.num_pos.mp hq
      exact Rat.num_pos.mpr (lt_of_lt_of_le h1 h)
    have hn1 : 0 < q.num.toNat := by omega
    have hd1 : 0 < q.den := Nat.pos_of_ne_zero q.den_nz
    have hn1' : 0 < q'.num.toNat := by omega
    have hd1' : 0 < q'.den := Nat.pos_of_ne_zero q'.den_nz
    have hspec := ilog2Q_spec q.num.toNat q.den hn1 hd1
    have hspec' := ilog2Q_spec q'.num.toNat q'.den hn1' hd1'
    rw [num_toNat_div_den q hq] at hspec
    rw [num_toNat_div_den q' hq'] at hspec'
    have hii : ilog2Q q.num.toNat q.den ≤ ilog2Q q'.num.toNat q'.den := by
      by_contra hgt
      push_neg at hgt
      have h4 : (2 : ℚ) ^ ilog2Q q.num.toNat q.den <
          (2 : ℚ) ^ (ilog2Q q'.num.toNat q'.den + 1) :=
        lt_of_le_of_lt (le_trans hspec.1 h) hspec'.2
      have h5 := (zpow_lt_zpow_iff_right₀ (by norm_num : (1:ℚ) < 2)).mp h4
      omega
    have hcross : q.num.toNat * q'.den ≤ q'.num.toNat * q.den := by
      have h3 := (Rat.le_def).mp h
      have h4 : (q.num.toNat : ℤ) = q.num := Int.toNat_of_nonneg (by omega)
      have h5 : (q'.num.toNat : ℤ) = q'.num := Int.toNat_of_nonneg (by omega)
      have h6 : (q.num.toNat : ℤ) * q'.den ≤ (q'.num.toNat : ℤ) * q.den := by
        rw [h4, h5]
        exact h3
      exact_mod_cast h6
    rcases eq_or_lt_of_le hii with heq | hlt
    · by_cases he : 0 ≤ ilog2Q q.num.toNat q.den - 52
      · have he' : 0 ≤ ilog2Q q'.num.toNat q'.den - 52 := by omega
        rw [rnd53_val_pos q hq he, rnd53_val_pos q' hq' he']
        have hEE : (ilog2Q q'.num.toNat q'.den - 52).toNat =
            (ilog2Q q.num.toNat q.den - 52).toNat := by
          rw [heq]
        rw [hEE]
        apply Nat.cast_le.mpr
        apply Nat.mul_le_mul_right
        apply rhe_mono _ _ _ _ (by positivity) (by positivity)
        calc q.num.toNat * (q'.den * 2 ^ (ilog2Q q.num.toNat q.den - 52).toNat) =
            (q.num.toNat * q'.den) * 2 ^ (ilog2Q q.num.toNat q.den - 52).toNat := by
              ring
          _ ≤ (q'.num.toNat * q.den) * 2 ^ (ilog2Q q.num.toNat q.den - 52).toNat :=
              Nat.mul_le_mul_right _ hcross
          _ = q'.num.toNat * (q.den * 2 ^ (ilog2Q q.num.toNat q.den - 52).toNat) := by
              ring
      · have he' : ¬ 0 ≤ ilog2Q q'.num.toNat q'.den - 52 := by omega
        rw [rnd53_val_neg q hq he, rnd53_val_neg q' hq' he']
        have hEE : (-(ilog2Q q'.num.toNat q'.den - 52)).toNat =
            (-(ilog2Q q.num.toNat q.den - 52)).toNat := by
          rw [heq]
        rw [hEE]
        gcongr
        apply Nat.cast_le.mpr
        apply rhe_mono _ _ _ _ hd1 hd1'
        calc q.num.toNat * 2 ^ (-(ilog2Q q.num.toNat q.den - 52)).toNat * q'.den =
            (q.num.toNat * q'.den) * 2 ^ (-(ilog2Q q.num.toNat q.den - 52)).toNat := by
              ring
          _ ≤ (q'.num.toNat * q.den) * 2 ^ (-(ilog2Q q.num.toNat q.den - 52)).toNat :=
              Nat.mul_le_mul_right _ hcross
          _ = q'.num.toNat * 2 ^ (-(ilog2Q q.num.toNat q.den - 52)).toNat * q.den := by
              ring
    · calc rnd53 q ≤ (2 : ℚ) ^ (ilog2Q q.num.toNat q.den + 1) := (rnd53_bounds q hq).2
        _ ≤ (2 : ℚ) ^ ilog2Q q'.num.toNat q'.den :=
            zpow_le_zpow_right₀ (by norm_num : (1:ℚ) ≤ 2) (by omega)
        _ ≤ rnd53 q' := (rnd53_bounds q' hq').1

theorem rnd53_one : rnd53 1 = 1 := by decide

theorem rnd53_hundred : rnd53 100 = 100 := by decide

theorem mkRat_num_mul_100 (x : ℚ) : mkRat (x.num * 100) x.den = x * 100 := by
  calc mkRat (x.num * 100) x.den = ((x.num * 100 : ℤ) : ℚ) / x.den := Rat.mkRat_eq_div _ _
    _ = ((x.num : ℚ) * 100) / x.den := by push_cast; ring
    _ = ((x.num : ℚ) / x.den) * 100 := by ring
    _ = x * 100 := by rw [Rat.num_div_den]

theorem mkRat_nat_le (c c' T : Nat) (h : c ≤ c') :
    mkRat (c : ℤ) T ≤ mkRat (c' : ℤ) T := by
  rw [Rat.mkRat_eq_div, Rat.mkRat_eq_div]
  by_cases hT : T = 0
  · subst hT
    simp
  · gcongr

theorem truncDiv_mono (y y' : ℚ) (hy : 0 ≤ y) (h : y ≤ y') :
    y.num.toNat / y.den ≤ y'.num.toNat / y'.den := by
  have h1 : y.num * y'.den ≤ y'.num * y.den := Rat.le_def.mp h
  have h2 : 0 ≤ y.num := Rat.num_nonneg.mpr hy
  have h3 : 0 ≤ y'.num := Rat.num_nonneg.mpr (le_trans hy h)
  have h4 : y.num.toNat * y'.den ≤ y'.num.toNat * y.den := by
    have e1 : ((y.num.toNat * y'.den : ℕ) : ℤ) = y.num * y'.den := by
      push_cast [Int.toNat_of_nonneg h2]
      ring
    have e2 : ((y'.num.toNat * y.den : ℕ) : ℤ) = y'.num * y.den := by
      push_cast [Int.toNat_of_nonneg h3]
      ring
    have h5 : ((y.num.toNat * y'.den : ℕ) : ℤ) ≤ ((y'.num.toNat * y.den : ℕ) : ℤ) := by
      rw [e1, e2]
      exact h1
    exact_mod_cast h5
  exact natDiv_le_natDiv _ _ _ _ (Nat.pos_of_ne_zero y.den_nz)
    (Nat.pos_of_ne_zero y'.den_nz) h4

theorem truncDiv_le_nat (y : ℚ) (B : ℕ) (h : y ≤ (B : ℚ)) :
    y.num.toNat / y.den ≤ B := by
  by_cases hy : 0 ≤ y
  · have h1 := truncDiv_mono y (B : ℚ) hy h
    rwa [Rat.num_natCast, Rat.den_natCast, Int.toNat_natCast, Nat.div_one] at h1
  · push_neg at hy
    have h2 : y.num < 0 := Rat.num_neg.mpr hy
    rw [show y.num.toNat = 0 by omega]
    simp

theorem pctOf_mono (p : WParams) {c c' : Nat} (h : c ≤ c') :
    pctOf p c ≤ pctOf p c' := by
  unfold pctOf
  have hx : rnd53 (mkRat c (totalTasks p)) ≤ rnd53 (mkRat c' (totalTasks p)) :=
    rnd53_mono _ _ (mkRat_nat_le c c' (totalTasks p) h)
  have hv : mkRat ((rnd53 (mkRat c (totalTasks p))).num * 100)
      (rnd53 (mkRat c (totalTasks p))).den ≤
      mkRat ((rnd53 (mkRat c' (totalTasks p))).num * 100)
        (rnd53 (mkRat c' (totalTasks p))).den := by
    rw [mkRat_num_mul_100, mkRat_num_mul_100]
    exact mul_le_mul_of_nonneg_right hx (by norm_num)
  exact truncDiv_mono _ _ (rnd53_nonneg _) (rnd53_mono _ _ hv)

theorem pctOf_le_100 (p : WParams) {c : Nat} (hT : totalTasks p ≠ 0)
    (h : c ≤ totalTasks p) : pctOf p c ≤ 100 := by
  unfold pctOf
  have h1 : mkRat (c : ℤ) (totalTasks p) ≤ 1 := by
    rw [Rat.mkRat_eq_div, div_le_one (by exact_mod_cast Nat.pos_of_ne_zero hT)]
    exact_mod_cast h
  have hx : rnd53 (mkRat c (totalTasks p)) ≤ 1 := by
    have h2 := rnd53_mono _ _ h1
    rwa [rnd53_one] at h2
  have hv : mkRat ((rnd53 (mkRat c (totalTasks p))).num * 100)
      (rnd53 (mkRat c (totalTasks p))).den ≤ (100 : ℚ) := by
    rw [mkRat_num_mul_100]
    nlinarith [hx]
  have hy : rnd53 (mkRat ((rnd53 (mkRat c (totalTasks p))).num * 100)
      (rnd53 (mkRat c (totalTasks p))).den) ≤ (100 : ℚ) := by
    have h2 := rnd53_mono _ _ hv
    rwa [rnd53_hundred] at h2
  exact truncDiv_le_nat _ 100 (by exact_mod_cast hy)

theorem pctOf_total (p : WParams) (hT : totalTasks p ≠ 0) :
    pctOf p (totalTasks p) = 100 := by
  unfold pctOf
  rw [show mkRat (totalTasks p : ℤ) (totalTasks p) = 1 by
    rw [Rat.mkRat_eq_div]
    exact div_self (by exact_mod_cast hT)]
  decide

theorem pctOf_zero (p : WParams) : pctOf p 0 = 0 := by
  unfold pctOf
  rw [show mkRat ((0 : ℕ) : ℤ) (totalTasks p) = 0 by
    rw [Nat.cast_zero, Rat.zero_mkRat]]
  decide

theorem pctOf_lt_100 (p : WParams) {c : Nat} (hT : totalTasks p ≠ 0)
    (h53 : totalTasks p ≤ 2 ^ 53) (h : c < totalTasks p) : pctOf p c < 100 := by
  unfold pctOf
  have h1 : mkRat (c : ℤ) (totalTasks p) ≤ mkRat ((2 ^ 53 - 1 : ℕ) : ℤ) (2 ^ 53) := by
    rw [Rat.mkRat_eq_div, Rat.mkRat_eq_div,
      div_le_div_iff₀ (by exact_mod_cast Nat.pos_of_ne_zero hT) (by positivity)]
    have hN : c * 2 ^ 53 ≤ (2 ^ 53 - 1) * totalTasks p := by omega
    calc ((c : ℕ) : ℚ) * ((2 : ℚ) ^ 53) = ((c * 2 ^ 53 : ℕ) : ℚ) := by push_cast; ring
      _ ≤ (((2 ^ 53 - 1) * totalTasks p : ℕ) : ℚ) := by exact_mod_cast hN
      _ = (((2 ^ 53 - 1 : ℕ) : ℤ) : ℚ) * totalTasks p := by push_cast; ring
  have hx := rnd53_mono _ _ h1
  have hv : mkRat ((rnd53 (mkRat c (totalTasks p))).num * 100)
      (rnd53 (mkRat c (totalTasks p))).den ≤
      mkRat ((rnd53 (mkRat ((2 ^ 53 - 1 : ℕ) : ℤ) (2 ^ 53))).num * 100)
        (rnd53 (mkRat ((2 ^ 53 - 1 : ℕ) : ℤ) (2 ^ 53))).den := by
    rw [mkRat_num_mul_100, mkRat_num_mul_100]
    exact mul_le_mul_of_nonneg_right hx (by norm_num)
  have htr := truncDiv_mono _ _ (rnd53_nonneg _) (rnd53_mono _ _ hv)
  have hfin : (rnd53 (mkRat ((rnd53 (mkRat ((2 ^ 53 - 1 : ℕ) : ℤ) (2 ^ 53))).num * 100)
      (rnd53 (mkRat ((2 ^ 53 - 1 : ℕ) : ℤ) (2 ^ 53))).den)).num.toNat /
      (rnd53 (mkRat ((rnd53 (mkRat ((2 ^ 53 - 1 : ℕ) : ℤ) (2 ^ 53))).num * 100)
        (rnd53 (mkRat ((2 ^ 53 - 1 : ℕ) : ℤ) (2 ^ 53))).den)).den = 99 := by
    decide
  omega

theorem pctOf_ge_100 (p : WParams) {c : Nat} (hT : totalTasks p ≠ 0)
    (h53 : totalTasks p ≤ 2 ^ 53) (h : 100 ≤ pctOf p c) : totalTasks p ≤ c := by
  by_contra hlt
  push_neg at hlt
  exact absurd h (not_le.mpr (pctOf_lt_100 p hT h53 hlt))

/-- The embedded float formula reproduces CPython's values where they differ
from the exact floor `c * 100 / T`: 28 (not 29) at task 29 of 100, and 57
(odd, unattainable by `2 * c`) at task 29 of 50. -/
theorem pctOf_matches_python_examples :
    pctOf params100 29 = 28 ∧ pctOf params50 29 = 57 ∧
      29 * 100 / totalTasks params100 = 29 ∧ 29 * 100 / totalTasks params50 = 58 := by
  decide

theorem totalTasks_pos (p : WParams) (hit : 1 ≤ p.iterations)
    (hne : p.data ≠ []) : totalTasks p ≠ 0 := by
  unfold totalTasks effectiveTotal
  have : p.data.length ≠ 0 := by simpa using hne
  split <;> [skip; skip] <;> intro hc <;>
    rcases Nat.mul_eq_zero.mp hc with h | h <;> omega

theorem PctInv_emit_loopmsg (p : WParams) (e : Ev) (st : WState)
    (he : pcts [e] = []) (h : PctInv p st) : PctInv p (emit e st) := by
  obtain ⟨h1, h2, h3⟩ := h
  unfold PctInv
  rw [emit_events, pcts_append, he, List.append_nil, emit_completed]
  exact ⟨h1, h2, h3⟩

theorem PctInv_setReads (p : WParams) (st : WState) (n : Nat)
    (h : PctInv p st) : PctInv p { st with reads := n } := h

theorem PctInv_emit_pct (p : WParams) (st : WState) {c : Nat}
    (hc : st.completed ≤ c) (h : PctInv p st) :
    PctInv p (emit (Ev.pct (pctOf p c)) { st with completed := c }) := by
  obtain ⟨h1, h2, h3⟩ := h
  unfold PctInv
  rw [emit_events, pcts_append]
  have hone : pcts [Ev.pct (pctOf p c)] = [pctOf p c] := by simp [pcts]
  rw [hone, emit_completed]
  simp only [show ({ st with completed := c } : WState).completed = c from rfl]
  refine ⟨?_, ?_, ?_⟩
  · refine List.Chain'.append h1 (List.chain'_singleton _) ?_
    intro x hx y hy
    have hxm : x ∈ pcts st.events := List.mem_of_getLast?_eq_some hx
    have hym : pctOf p c = y := by simpa using hy
    subst hym
    exact le_trans (h2 x hxm) (pctOf_mono p hc)
  · intro q hq
    rcases List.mem_append.mp hq with hq | hq
    · exact le_trans (h2 q hq) (pctOf_mono p hc)
    · simp only [List.mem_singleton] at hq
      subst hq
      exact le_refl _
  · intro q hq
    rcases List.mem_append.mp hq with hq | hq
    · rcases h3 q hq with ⟨c', hc', hq'⟩
      exact ⟨c', by omega, hq'⟩
    · simp only [List.mem_singleton] at hq
      subst hq
      exact ⟨c, le_refl _, rfl⟩

theorem PctInv_processRecord (p : WParams) (oracle : Nat → Nat → ℚ)
    (iter idx : Nat) (row : Row) (st : WState) (h : PctInv p st) :
    PctInv p (processRecord p oracle iter idx row st) := by
  obtain ⟨h1, h2, h3⟩ := h
  have hev := processRecord_events p oracle iter idx row st
  have hco := processRecord_completed p oracle iter idx row st
  unfold PctInv
  rw [hev, hco, pcts_append]
  have hbranch : pcts (Ev.pct (pctOf p (st.completed + 1)) ::
      (if row.title = "" ∧ row.abstract = "" then [Ev.msg "missing, skipping"]
       else [Ev.msg "processing row", Ev.apiCall iter idx, Ev.msg "evaluation result"])) =
      [pctOf p (st.completed + 1)] := by
    split <;> simp [pcts]
  rw [hbranch]
  refine ⟨?_, ?_, ?_⟩
  · refine List.Chain'.append h1 (List.chain'_singleton _) ?_
    intro x hx y hy
    have hxm : x ∈ pcts st.events := List.mem_of_getLast?_eq_some hx
    have hym : pctOf p (st.completed + 1) = y := by simpa using hy
    subst hym
    exact le_trans (h2 x hxm) (pctOf_mono p (by omega))
  · intro q hq
    rcases List.mem_append.mp hq with hq | hq
    · exact le_trans (h2 q hq) (pctOf_mono p (by omega))
    · simp only [List.mem_singleton] at hq
      subst hq
      exact le_refl _
  · intro q hq
    rcases List.mem_append.mp hq with hq | hq
    · rcases h3 q hq with ⟨c', hc', hq'⟩
      exact ⟨c', by omega, hq'⟩
    · simp only [List.mem_singleton] at hq
      subst hq
      exact ⟨st.completed + 1, le_refl _, rfl⟩

theorem innerLoop_PctInv (p : WParams) (oracle : Nat → Nat → ℚ)
    (flag : Nat → Bool) (iter : Nat) :
    ∀ (rows : List Row) (idx : Nat) (st : WState), PctInv p st →
      PctInv p (innerLoop p oracle flag iter rows idx st) := by
  intro rows
  induction rows with
  | nil => intro idx st h; simpa [innerLoop] using h
  | cons r rest ih =>
      intro idx st h
      rw [innerLoop_step]
      split
      · exact PctInv_emit_loopmsg p _ _ (by simp [pcts]) (PctInv_setReads p st _ h)
      · split
        · exact PctInv_emit_loopmsg p _ _ (by simp [pcts]) (PctInv_setReads p st _ h)
        · exact ih (idx + 1) _
            (PctInv_processRecord p oracle iter idx r _ (PctInv_setReads p st _ h))

theorem outerLoop_PctInv (p : WParams) (oracle : Nat → Nat → ℚ)
    (flag : Nat → Bool) :
    ∀ (rem iter : Nat) (st : WState), PctInv p st →
      PctInv p (outerLoop p oracle flag iter rem st) := by
  intro rem
  induction rem with
  | zero => intro iter st h; simpa [outerLoop] using h
  | succ n ih =>
      intro iter st h
      rw [outerLoop_step]
      split
      · exact PctInv_emit_loopmsg p _ _ (by simp [pcts]) (PctInv_setReads p st _ h)
      · exact ih (iter + 1) _ (innerLoop_PctInv p oracle flag iter p.data 0 _
          (PctInv_emit_loopmsg p _ _ (by simp [pcts]) (PctInv_setReads p st _ h)))

theorem preState_PctInv (p : WParams) : PctInv p (preState p) := by
  unfold PctInv preState
  split <;>
    refine ⟨?_, ?_, ?_⟩ <;>
      simp [pcts, emit, pctOf_zero]

theorem effectiveTotal_le_len (p : WParams) :
    effectiveTotal p ≤ p.data.length := by
  unfold effectiveTotal
  split <;> omega

theorem innerLoop_completed_le (p : WParams) (oracle : Nat → Nat → ℚ)
    (flag : Nat → Bool) (iter : Nat) :
    ∀ (rows : List Row) (idx : Nat) (st : WState),
      rows = p.data.drop idx → idx ≤ effectiveTotal p →
      (innerLoop p oracle flag iter rows idx st).completed ≤
        st.completed + (effectiveTotal p - idx) := by
  intro rows
  induction rows with
  | nil => intro idx st _ _; simp [innerLoop]
  | cons r rest ih =>
      intro idx st hdrop hle
      have hidx : idx < p.data.length := by
        by_contra hge
        rw [List.drop_eq_nil_iff.mpr (by omega)] at hdrop
        cases hdrop
      have hdrop2 := List.drop_eq_getElem_cons (l := p.data) (n := idx) hidx
      rw [← hdrop] at hdrop2
      have hrest : rest = p.data.drop (idx + 1) := by injection hdrop2 with _ h2
      rw [innerLoop_step]
      split
      · simp only [emit_completed, setReads_completed]
        omega
      · split
        · simp only [emit_completed, setReads_completed]
          omega
        · rename_i hnb
          push_neg at hnb
          have hidx2 : idx < effectiveTotal p := by
            unfold effectiveTotal
            split
            · rename_i hcond
              exact hnb hcond.1
            · omega
          have h2 := ih (idx + 1)
            (processRecord p oracle iter idx r { st with reads := st.reads + 1 })
            hrest (by omega)
          have h3 := processRecord_completed p oracle iter idx r
            { st with reads := st.reads + 1 }
          have h4 : ({ st with reads := st.reads + 1 } : WState).completed
              = st.completed := rfl
          omega

theorem outerLoop_completed_le (p : WParams) (oracle : Nat → Nat → ℚ)
    (flag : Nat → Bool) :
    ∀ (rem iter : Nat) (st : WState),
      (outerLoop p oracle flag iter rem st).completed ≤
        st.completed + rem * effectiveTotal p := by
  intro rem
  induction rem with
  | zero => intro iter st; simp [outerLoop]
  | succ n ih =>
      intro iter st
      rw [outerLoop_step]
      split
      · simp only [emit_completed, setReads_completed]
        exact Nat.le_add_right _ _
      · have h1 := ih (iter + 1)
          (innerLoop p oracle flag iter p.data 0
            (emit (Ev.msg "starting iteration") { st with reads := st.reads + 1 }))
        have h2 := innerLoop_completed_le p oracle flag iter p.data 0
          (emit (Ev.msg "starting iteration") { st with reads := st.reads + 1 })
          (List.drop_zero p.data).symm (by omega)
        have h3 : (emit (Ev.msg "starting iteration")
            { st with reads := st.reads + 1 } : WState).completed = st.completed := rfl
        have h4 : (n + 1) * effectiveTotal p
            = n * effectiveTotal p + effectiveTotal p := by ring
        rw [h4]
        set t := n * effectiveTotal p
        omega

theorem innerLoop_reads_ge (p : WParams) (oracle : Nat → Nat → ℚ)
    (flag : Nat → Bool) (iter : Nat) :
    ∀ (rows : List Row) (idx : Nat) (st : WState),
      st.reads ≤ (innerLoop p oracle flag iter rows idx st).reads := by
  intro rows
  induction rows with
  | nil => intro idx st; simp [innerLoop]
  | cons r rest ih =>
      intro idx st
      rw [innerLoop_step]
      split
      · simp [emit_reads]
      · split
        · simp [emit_reads]
        · have h := ih (idx + 1)
            (processRecord p oracle iter idx r { st with reads := st.reads + 1 })
          have h2 : ({ st with reads := st.reads + 1 } : WState).reads = st.reads + 1 := rfl
          rw [processRecord_reads, h2] at h
          omega

theorem outerLoop_reads_ge (p : WParams) (oracle : Nat → Nat → ℚ)
    (flag : Nat → Bool) :
    ∀ (rem iter : Nat) (st : WState),
      st.reads ≤ (outerLoop p oracle flag iter rem st).reads := by
  intro rem
  induction rem with
  | zero => intro iter st; simp [outerLoop]
  | succ n ih =>
      intro iter st
      rw [outerLoop_step]
      split
      · simp [emit_reads]
      · have h1 := ih (iter + 1)
          (innerLoop p oracle flag iter p.data 0
            (emit (Ev.msg "starting iteration") { st with reads := st.reads + 1 }))
        have h2 := innerLoop_reads_ge p oracle flag iter p.data 0
          (emit (Ev.msg "starting iteration") { st with reads := st.reads + 1 })
        have h3 : (emit (Ev.msg "starting iteration")
            { st with reads := st.reads + 1 } : WState).reads = st.reads + 1 := rfl
        omega

theorem effectiveTotal_le_max (p : WParams) (h : 0 < p.maxRecords) :
    effectiveTotal p ≤ p.maxRecords := by
  unfold effectiveTotal
  split <;> omega

theorem innerLoop_completed_exact (p : WParams) (oracle : Nat → Nat → ℚ)
    (flag : Nat → Bool) (iter : Nat) :
    ∀ (rows : List Row) (idx : Nat) (st : WState),
      rows = p.data.drop idx → idx ≤ effectiveTotal p →
      (∀ k, k < (innerLoop p oracle flag iter rows idx st).reads → flag k = false) →
      (innerLoop p oracle flag iter rows idx st).completed =
        st.completed + (effectiveTotal p - idx) := by
  intro rows
  induction rows with
  | nil =>
      intro idx st hdrop _ _
      have hlen : p.data.length ≤ idx := by
        by_contra hlt
        push_neg at hlt
        have := List.drop_eq_getElem_cons (l := p.data) (n := idx) hlt
        rw [← hdrop] at this
        cases this
      have := effectiveTotal_le_len p
      simp [innerLoop]
      omega
  | cons r rest ih =>
      intro idx st hdrop hle hfl
      have hidx : idx < p.data.length := by
        by_contra hge
        rw [List.drop_eq_nil_iff.mpr (by omega)] at hdrop
        cases hdrop
      have hdrop2 := List.drop_eq_getElem_cons (l := p.data) (n := idx) hidx
      rw [← hdrop] at hdrop2
      have hrest : rest = p.data.drop (idx + 1) := by injection hdrop2 with _ h2
      by_cases hb : flag st.reads = true
      · exfalso
        have hr : st.reads <
            (innerLoop p oracle flag iter (r :: rest) idx st).reads := by
          rw [innerLoop_step, if_pos hb]
          have : (emit (Ev.msg "Processing cancelled.")
              { st with reads := st.reads + 1 } : WState).reads = st.reads + 1 := rfl
          omega
        have := hfl st.reads hr
        rw [hb] at this
        cases this
      · rw [Bool.not_eq_true] at hb
        by_cases hbrk : 0 < p.maxRecords ∧ p.maxRecords ≤ idx
        · have heff : effectiveTotal p = idx := by
            have := effectiveTotal_le_max p hbrk.1
            omega
          have heq : innerLoop p oracle flag iter (r :: rest) idx st =
              emit (Ev.msg "maximum record count reached")
                { st with reads := st.reads + 1 } := by
            rw [innerLoop_step]
            rw [if_neg (by simp [hb]), if_pos hbrk]
          rw [heq, heff]
          have : (emit (Ev.msg "maximum record count reached")
              { st with reads := st.reads + 1 } : WState).completed = st.completed := rfl
          omega
        · have hidx2 : idx < effectiveTotal p := by
            unfold effectiveTotal
            push_neg at hbrk
            split
            · rename_i hcond
              exact hbrk hcond.1
            · omega
          have heq : innerLoop p oracle flag iter (r :: rest) idx st =
              innerLoop p oracle flag iter rest (idx + 1)
                (processRecord p oracle iter idx r { st with reads := st.reads + 1 }) := by
            rw [innerLoop_step]
            rw [if_neg (by simp [hb]), if_neg hbrk]
          rw [heq] at hfl ⊢
          have h2 := ih (idx + 1)
            (processRecord p oracle iter idx r { st with reads := st.reads + 1 })
            hrest (by omega) hfl
          rw [h2]
          have h3 := processRecord_completed p oracle iter idx r
            { st with reads := st.reads + 1 }
          have h4 : ({ st with reads := st.reads + 1 } : WState).completed
              = st.completed := rfl
          omega

theorem outerLoop_completed_exact (p : WParams) (oracle : Nat → Nat → ℚ)
    (flag : Nat → Bool) :
    ∀ (rem iter : Nat) (st : WState),
      (∀ k, k < (outerLoop p oracle flag iter rem st).reads → flag k = false) →
      (outerLoop p oracle flag iter rem st).completed =
        st.completed + rem * effectiveTotal p := by
  intro rem
  induction rem with
  | zero => intro iter st _; simp [outerLoop]
  | succ n ih =>
      intro iter st hfl
      by_cases hb : flag st.reads = true
      · exfalso
        have hr : st.reads <
            (outerLoop p oracle flag iter (n + 1) st).reads := by
          rw [outerLoop_step, if_pos hb]
          have : (emit (Ev.msg "Processing cancelled.")
              { st with reads := st.reads + 1 } : WState).reads = st.reads + 1 := rfl
          omega
        have := hfl st.reads hr
        rw [hb] at this
        cases this
      · rw [Bool.not_eq_true] at hb
        have heq : outerLoop p oracle flag iter (n + 1) st =
            outerLoop p oracle flag (iter + 1) n
              (innerLoop p oracle flag iter p.data 0
                (emit (Ev.msg "starting iteration") { st with reads := st.reads + 1 })) := by
          rw [outerLoop_step]
          rw [if_neg (by simp [hb])]
        rw [heq] at hfl ⊢
        have hinner_le := outerLoop_reads_ge p oracle flag n (iter + 1)
          (innerLoop p oracle flag iter p.data 0
            (emit (Ev.msg "starting iteration") { st with reads := st.reads + 1 }))
        have hfl2 : ∀ k, k < (innerLoop p oracle flag iter p.data 0
            (emit (Ev.msg "starting iteration")
              { st with reads := st.reads + 1 })).reads → flag k = false := by
          intro k hk
          exact hfl k (by omega)
        have h2 := innerLoop_completed_exact p oracle flag iter p.data 0
          (emit (Ev.msg "starting iteration") { st with reads := st.reads + 1 })
          (List.drop_zero p.data).symm (by omega) hfl2
        have h1 := ih (iter + 1)
          (innerLoop p oracle flag iter p.data 0
            (emit (Ev.msg "starting iteration") { st with reads := st.reads + 1 }))
          hfl
        rw [h1, h2]
        have h3 : (emit (Ev.msg "starting iteration")
            { st with reads := st.reads + 1 } : WState).completed = st.completed := rfl
        have h4 : (n + 1) * effectiveTotal p
            = n * effectiveTotal p + effectiveTotal p := by ring
        rw [h4]
        set t := n * effectiveTotal p
        omega

/-- C7 (corrected): for every run with a nonempty data set and at least one
iteration, `total_tasks = effective_total * iterations`, the emitted
progress-percentage sequence is non-decreasing, and every emitted
percentage is `pctOf` — line 118's `int((c / total_tasks) * 100)` computed
in binary64 floats, which can fall below the exact floor (`pctOf 29` of 100
tasks is 28) — at some task count `c ≤ total_tasks`; a never-cancelled run
signals completion and emits 100; and, under a monotone cancellation flag
and `total_tasks ≤ 2^53` (beyond which `c/total_tasks` can round up to 1.0
one task early), a run that emitted 100 had
`completed_tasks = total_tasks`.  The claim's stronger reading, that 100 is
reached only at successful non-cancelled completion, is refuted by
`c7_progress_counterexample`: a run cancelled at the final flag check (line
236) has already emitted 100 from the per-record update yet never saves or
signals completion. -/
theorem c7_progress (p : WParams) (oracle : Nat → Nat → ℚ) (flag : Nat → Bool)
    (hit : 1 ≤ p.iterations) (hne : p.data ≠ []) :
    totalTasks p = effectiveTotal p * p.iterations ∧
    List.Chain' (· ≤ ·) (pcts (runWorker p oracle flag).events) ∧
    (∀ q ∈ pcts (runWorker p oracle flag).events,
      ∃ c, c ≤ totalTasks p ∧ q = pctOf p c) ∧
    ((∀ k, flag k = false) →
      hasComplete (runWorker p oracle flag).events = true ∧
      100 ∈ pcts (runWorker p oracle flag).events) ∧
    (MonoFlag flag → totalTasks p ≤ 2 ^ 53 →
      100 ∈ pcts (runWorker p oracle flag).events →
      (runWorker p oracle flag).completed = totalTasks p) := by
  have hlen0 : ¬ p.data.length = 0 := by simpa using hne
  have hT : totalTasks p ≠ 0 := totalTasks_pos p hit hne
  have hInv := outerLoop_PctInv p oracle flag p.iterations 1 (preState p)
    (preState_PctInv p)
  have hle := outerLoop_completed_le p oracle flag p.iterations 1 (preState p)
  rw [preState_completed, Nat.mul_comm] at hle
  have hleT : (outerLoop p oracle flag 1 p.iterations (preState p)).completed ≤
      totalTasks p := by
    unfold totalTasks
    set T := effectiveTotal p * p.iterations
    omega
  by_cases hb : flag (outerLoop p oracle flag 1 p.iterations (preState p)).reads = true
  · have hR : runWorker p oracle flag =
        { outerLoop p oracle flag 1 p.iterations (preState p) with
          reads := (outerLoop p oracle flag 1 p.iterations (preState p)).reads + 1 } := by
      unfold runWorker runTail
      rw [if_neg hlen0, if_pos hb]
    refine ⟨rfl, ?_, ?_, ?_, ?_⟩
    · rw [hR]
      exact hInv.1
    · rw [hR]
      intro q hq
      obtain ⟨c, hc, hqe⟩ := hInv.2.2 q hq
      exact ⟨c, le_trans hc hleT, hqe⟩
    · intro hf
      rw [hf] at hb
      cases hb
    · intro _ h53 h100
      rw [hR] at h100 ⊢
      have h1 := hInv.2.1 100 h100
      have h2 := pctOf_ge_100 p hT h53 h1
      show (outerLoop p oracle flag 1 p.iterations (preState p)).completed = totalTasks p
      omega
  · rw [Bool.not_eq_true] at hb
    have hR : runWorker p oracle flag =
        emit (Ev.complete
            ((outerLoop p oracle flag 1 p.iterations (preState p)).results.length /
              p.iterations)
            (outerLoop p oracle flag 1 p.iterations (preState p)).relevant)
          (emit (Ev.msg "Processing completed.")
            (emit (Ev.pct 100)
              (emit (Ev.saved (outerLoop p oracle flag 1 p.iterations (preState p)).results)
                (emit (Ev.msg "Writing results to Excel...")
                  { outerLoop p oracle flag 1 p.iterations (preState p) with
                    reads :=
                      (outerLoop p oracle flag 1 p.iterations (preState p)).reads + 1 })))) := by
      unfold runWorker runTail saveTail
      rw [if_neg hlen0, if_neg (by simp [hb]), if_neg (by omega)]
    have hev : (runWorker p oracle flag).events =
        (outerLoop p oracle flag 1 p.iterations (preState p)).events ++
          [Ev.msg "Writing results to Excel...",
           Ev.saved (outerLoop p oracle flag 1 p.iterations (preState p)).results,
           Ev.pct 100, Ev.msg "Processing completed.",
           Ev.complete
             ((outerLoop p oracle flag 1 p.iterations (preState p)).results.length /
               p.iterations)
             (outerLoop p oracle flag 1 p.iterations (preState p)).relevant] := by
      rw [hR]
      simp [emit]
    have hp : pcts (runWorker p oracle flag).events =
        pcts (outerLoop p oracle flag 1 p.iterations (preState p)).events ++ [100] := by
      rw [hev, pcts_append]
      rfl
    have hcompleted : (runWorker p oracle flag).completed =
        (outerLoop p oracle flag 1 p.iterations (preState p)).completed := by
      rw [hR]
      rfl
    refine ⟨rfl, ?_, ?_, ?_, ?_⟩
    · rw [hp]
      refine List.Chain'.append hInv.1 (by simp) ?_
      intro x hx y hy
      simp at hy
      subst hy
      have hxm : x ∈ pcts (outerLoop p oracle flag 1 p.iterations (preState p)).events :=
        List.mem_of_getLast?_eq_some hx
      have h1 := hInv.2.1 x hxm
      have h2 := pctOf_le_100 p hT hleT
      omega
    · intro q hq
      rw [hp] at hq
      rcases List.mem_append.mp hq with hq | hq
      · obtain ⟨c, hc, hqe⟩ := hInv.2.2 q hq
        exact ⟨c, le_trans hc hleT, hqe⟩
      · simp at hq
        subst hq
        exact ⟨totalTasks p, le_refl _, (pctOf_total p hT).symm⟩
    · intro _
      constructor
      · rw [hev]
        simp [hasComplete]
      · rw [hp]
        simp
    · intro hmono _ _
      rw [hcompleted]
      have hfl : ∀ k,
          k < (outerLoop p oracle flag 1 p.iterations (preState p)).reads →
          flag k = false := by
        intro k hk
        by_contra hkt
        rw [Bool.not_eq_false] at hkt
        have h2 := hmono k _ (Nat.le_of_lt hk) hkt
        simp [hb] at h2
      have hx := outerLoop_completed_exact p oracle flag p.iterations 1
        (preState p) hfl
      rw [preState_completed, Nat.mul_comm] at hx
      unfold totalTasks
      set T := effectiveTotal p * p.iterations
      omega

/-- C7 counterexample to "progress reaches exactly 100 only at successful,
non-cancelled completion": cancelling at the final pre-save flag check
leaves 100 in the emitted percentages while the run neither saves nor
signals completion. -/
theorem c7_progress_counterexample :
    100 ∈ pcts (runWorker params1 constScore6 cancelAtEnd).events ∧
    hasComplete (runWorker params1 constScore6 cancelAtEnd).events = false ∧
    hasSaved (runWorker params1 constScore6 cancelAtEnd).events = false := by
  decide

/-- Witness for `c7_progress` at a concrete run. -/
theorem c7_progress_witness :
    1 ≤ paramsMix.iterations ∧ paramsMix.data ≠ [] ∧
    (totalTasks paramsMix = effectiveTotal paramsMix * paramsMix.iterations ∧
      List.Chain' (· ≤ ·) (pcts (runWorker paramsMix constScore6 neverCancel).events) ∧
      (∀ q ∈ pcts (runWorker paramsMix constScore6 neverCancel).events,
        ∃ c, c ≤ totalTasks paramsMix ∧ q = pctOf paramsMix c) ∧
      ((∀ k, neverCancel k = false) →
        hasComplete (runWorker paramsMix constScore6 neverCancel).events = true ∧
        100 ∈ pcts (runWorker paramsMix constScore6 neverCancel).events) ∧
      (MonoFlag neverCancel → totalTasks paramsMix ≤ 2 ^ 53 →
        100 ∈ pcts (runWorker paramsMix constScore6 neverCancel).events →
        (runWorker paramsMix constScore6 neverCancel).completed =
          totalTasks paramsMix)) :=
  ⟨by decide, by decide,
    c7_progress paramsMix constScore6 neverCancel (by decide) (by decide)⟩

theorem innerLoop_events_shape (p : WParams) (oracle : Nat → Nat → ℚ)
    (flag : Nat → Bool) (iter : Nat) :
    ∀ (rows : List Row) (idx : Nat) (st : WState),
      ∃ tl, (innerLoop p oracle flag iter rows idx st).events = st.events ++ tl ∧
        tl.all loopEv = true := by
  intro rows
  induction rows with
  | nil => intro idx st; exact ⟨[], by simp [innerLoop], rfl⟩
  | cons r rest ih =>
      intro idx st
      rw [innerLoop_step]
      split
      · exact ⟨[Ev.msg "Processing cancelled."], by simp [emit], rfl⟩
      · split
        · exact ⟨[Ev.msg "maximum record count reached"], by simp [emit], rfl⟩
        · obtain ⟨tl, htl, hall⟩ := ih (idx + 1)
            (processRecord p oracle iter idx r { st with reads := st.reads + 1 })
          have hX := processRecord_events p oracle iter idx r
            { st with reads := st.reads + 1 }
          rw [setReads_events, setReads_completed] at hX
          refine ⟨(Ev.pct (pctOf p (st.completed + 1)) ::
              (if r.title = "" ∧ r.abstract = "" then [Ev.msg "missing, skipping"]
               else [Ev.msg "processing row", Ev.apiCall iter idx,
                 Ev.msg "evaluation result"])) ++ tl, ?_, ?_⟩
          · rw [htl, hX, List.append_assoc]
          · rw [List.all_append, hall]
            split <;> rfl

theorem outerLoop_events_shape (p : WParams) (oracle : Nat → Nat → ℚ)
    (flag : Nat → Bool) :
    ∀ (rem iter : Nat) (st : WState),
      ∃ tl, (outerLoop p oracle flag iter rem st).events = st.events ++ tl ∧
        tl.all loopEv = true := by
  intro rem
  induction rem with
  | zero => intro iter st; exact ⟨[], by simp [outerLoop], rfl⟩
  | succ n ih =>
      intro iter st
      rw [outerLoop_step]
      split
      · exact ⟨[Ev.msg "Processing cancelled."], by simp [emit], rfl⟩
      · obtain ⟨tl1, htl1, hall1⟩ := innerLoop_events_shape p oracle flag iter p.data 0
          (emit (Ev.msg "starting iteration") { st with reads := st.reads + 1 })
        obtain ⟨tl2, htl2, hall2⟩ := ih (iter + 1)
          (innerLoop p oracle flag iter p.data 0
            (emit (Ev.msg "starting iteration") { st with reads := st.reads + 1 }))
        have hemit : (emit (Ev.msg "starting iteration")
            { st with reads := st.reads + 1 } : WState).events =
            st.events ++ [Ev.msg "starting iteration"] := by
          simp [emit]
        refine ⟨([Ev.msg "starting iteration"] ++ tl1) ++ tl2, ?_, ?_⟩
        · rw [htl2, htl1, hemit]
          simp [List.append_assoc]
        · rw [List.all_append, List.all_append, hall1, hall2]
          rfl

theorem innerLoop_cancel_msg (p : WParams) (oracle : Nat → Nat → ℚ)
    (flag : Nat → Bool) (iter : Nat) :
    ∀ (rows : List Row) (idx : Nat) (st : WState) (k : Nat), st.reads ≤ k →
      k < (innerLoop p oracle flag iter rows idx st).reads → flag k = true →
      Ev.msg "Processing cancelled." ∈
        (innerLoop p oracle flag iter rows idx st).events := by
  intro rows
  induction rows with
  | nil =>
      intro idx st k h1 h2 _
      simp [innerLoop] at h2
      omega
  | cons r rest ih =>
      intro idx st k h1 h2 h3
      by_cases hb : flag st.reads = true
      · rw [innerLoop_step, if_pos hb]
        simp [emit]
      · rw [Bool.not_eq_true] at hb
        have hk0 : k ≠ st.reads := by
          rintro rfl
          rw [h3] at hb
          cases hb
        have hk1 : st.reads + 1 ≤ k := by omega
        by_cases hbrk : 0 < p.maxRecords ∧ p.maxRecords ≤ idx
        · exfalso
          rw [innerLoop_step, if_neg (by simp [hb]), if_pos hbrk] at h2
          have : (emit (Ev.msg "maximum record count reached")
              { st with reads := st.reads + 1 } : WState).reads = st.reads + 1 := rfl
          omega
        · rw [innerLoop_step, if_neg (by simp [hb]), if_neg hbrk] at h2 ⊢
          refine ih (idx + 1)
            (processRecord p oracle iter idx r { st with reads := st.reads + 1 })
            k ?_ h2 h3
          rw [processRecord_reads]
          exact hk1

theorem outerLoop_cancel_msg (p : WParams) (oracle : Nat → Nat → ℚ)
    (flag : Nat → Bool) :
    ∀ (rem iter : Nat) (st : WState) (k : Nat), st.reads ≤ k →
      k < (outerLoop p oracle flag iter rem st).reads → flag k = true →
      Ev.msg "Processing cancelled." ∈
        (outerLoop p oracle flag iter rem st).events := by
  intro rem
  induction rem with
  | zero =>
      intro iter st k h1 h2 _
      simp [outerLoop] at h2
      omega
  | succ n ih =>
      intro iter st k h1 h2 h3
      by_cases hb : flag st.reads = true
      · rw [outerLoop_step, if_pos hb]
        simp [emit]
      · rw [Bool.not_eq_true] at hb
        have hk0 : k ≠ st.reads := by
          rintro rfl
          rw [h3] at hb
          cases hb
        have hk1 : st.reads + 1 ≤ k := by omega
        rw [outerLoop_step, if_neg (by simp [hb])] at h2 ⊢
        by_cases hki : k < (innerLoop p oracle flag iter p.data 0
            (emit (Ev.msg "starting iteration") { st with reads := st.reads + 1 })).reads
        · have hm := innerLoop_cancel_msg p oracle flag iter p.data 0
            (emit (Ev.msg "starting iteration") { st with reads := st.reads + 1 })
            k hk1 hki h3
          obtain ⟨tl, htl, _⟩ := outerLoop_events_shape p oracle flag n (iter + 1)
            (innerLoop p oracle flag iter p.data 0
              (emit (Ev.msg "starting iteration") { st with reads := st.reads + 1 }))
          rw [htl]
          exact List.mem_append.mpr (Or.inl hm)
        · push_neg at hki
          exact ih (iter + 1)
            (innerLoop p oracle flag iter p.data 0
              (emit (Ev.msg "starting iteration") { st with reads := st.reads + 1 }))
            k hki h2 h3

theorem hasSaved_append (a b : List Ev) :
    hasSaved (a ++ b) = (hasSaved a || hasSaved b) :=
  List.any_append

theorem hasComplete_append (a b : List Ev) :
    hasComplete (a ++ b) = (hasComplete a || hasComplete b) :=
  List.any_append

theorem hasError_append (a b : List Ev) :
    hasError (a ++ b) = (hasError a || hasError b) :=
  List.any_append

theorem preState_no_sink (p : WParams) :
    hasSaved (preState p).events = false ∧ hasComplete (preState p).events = false ∧
      hasError (preState p).events = false := by
  unfold preState
  split <;> exact ⟨rfl, rfl, rfl⟩

theorem loopEv_no_sink (tl : List Ev) (h : tl.all loopEv = true) :
    hasSaved tl = false ∧ hasComplete tl = false ∧ hasError tl = false := by
  induction tl with
  | nil => exact ⟨rfl, rfl, rfl⟩
  | cons e tl ih =>
      rw [List.all_cons, Bool.and_eq_true] at h
      obtain ⟨h1, h2, h3⟩ := ih h.2
      have he := h.1
      cases e <;> simp_all [hasSaved, hasComplete, hasError, loopEv]

theorem saveTail_reads (p : WParams) (st : WState) :
    (saveTail p st).reads = st.reads := by
  unfold saveTail
  split <;> rfl

/-- C1 (corrected): in every run whose cancellation flag is monotone and was
observed set at a loop-top read (a read that is not the run's final one),
the worker emits the "Processing cancelled." progress message and terminates
without any save, completion or error event.  The claim's assertion that the
collected results are "eventually flushed to the ResultSink" is refuted by
`c1_cancellation_counterexample`: line 236's `if not self.terminate_flag`
skips the Excel write entirely, so the ≤2 collected results of a run
cancelled after 2 of 15 tasks stay in memory and are never committed. -/
theorem c1_cancellation (p : WParams) (oracle : Nat → Nat → ℚ)
    (flag : Nat → Bool) (hne : p.data ≠ []) (hmono : MonoFlag flag)
    (hcancel : ∃ k, k + 1 < (runWorker p oracle flag).reads ∧ flag k = true) :
    Ev.msg "Processing cancelled." ∈ (runWorker p oracle flag).events ∧
    hasSaved (runWorker p oracle flag).events = false ∧
    hasComplete (runWorker p oracle flag).events = false ∧
    hasError (runWorker p oracle flag).events = false := by
  have hlen0 : ¬ p.data.length = 0 := by simpa using hne
  obtain ⟨k, hk, hkt⟩ := hcancel
  by_cases hb : flag (outerLoop p oracle flag 1 p.iterations (preState p)).reads = true
  · have hR : runWorker p oracle flag =
        { outerLoop p oracle flag 1 p.iterations (preState p) with
          reads := (outerLoop p oracle flag 1 p.iterations (preState p)).reads + 1 } := by
      unfold runWorker runTail
      rw [if_neg hlen0, if_pos hb]
    rw [hR] at hk
    have hk2 : k < (outerLoop p oracle flag 1 p.iterations (preState p)).reads := by
      have : ({ outerLoop p oracle flag 1 p.iterations (preState p) with
          reads := (outerLoop p oracle flag 1 p.iterations (preState p)).reads + 1 } :
            WState).reads =
          (outerLoop p oracle flag 1 p.iterations (preState p)).reads + 1 := rfl
      omega
    obtain ⟨tl, htl, hall⟩ := outerLoop_events_shape p oracle flag p.iterations 1
      (preState p)
    obtain ⟨hs1, hc1, he1⟩ := preState_no_sink p
    obtain ⟨hs2, hc2, he2⟩ := loopEv_no_sink tl hall
    rw [hR]
    refine ⟨?_, ?_, ?_, ?_⟩
    · show Ev.msg "Processing cancelled." ∈
        (outerLoop p oracle flag 1 p.iterations (preState p)).events
      refine outerLoop_cancel_msg p oracle flag p.iterations 1 (preState p) k ?_ hk2 hkt
      rw [preState_reads]
      omega
    · show hasSaved (outerLoop p oracle flag 1 p.iterations (preState p)).events = false
      rw [htl, hasSaved_append, hs1, hs2]
      rfl
    · show hasComplete (outerLoop p oracle flag 1 p.iterations (preState p)).events = false
      rw [htl, hasComplete_append, hc1, hc2]
      rfl
    · show hasError (outerLoop p oracle flag 1 p.iterations (preState p)).events = false
      rw [htl, hasError_append, he1, he2]
      rfl
  · exfalso
    rw [Bool.not_eq_true] at hb
    have hR : runWorker p oracle flag =
        saveTail p
          { outerLoop p oracle flag 1 p.iterations (preState p) with
            reads := (outerLoop p oracle flag 1 p.iterations (preState p)).reads + 1 } := by
      unfold runWorker runTail
      rw [if_neg hlen0, if_neg (by simp [hb])]
    rw [hR, saveTail_reads] at hk
    have hk2 : k < (outerLoop p oracle flag 1 p.iterations (preState p)).reads := by
      have : ({ outerLoop p oracle flag 1 p.iterations (preState p) with
          reads := (outerLoop p oracle flag 1 p.iterations (preState p)).reads + 1 } :
            WState).reads =
          (outerLoop p oracle flag 1 p.iterations (preState p)).reads + 1 := rfl
      omega
    have h2 := hmono k _ (Nat.le_of_lt hk2) hkt
    simp [hb] at h2

/-- C1 counterexample to "eventually flushes them to the ResultSink":
cancellation after the 2nd of 15 tasks leaves exactly the 2 collected
results in memory, and the run ends with no save and no error. -/
theorem c1_cancellation_counterexample :
    hasSaved (runWorker params15 constScore6 cancelAfter3).events = false ∧
    (runWorker params15 constScore6 cancelAfter3).results.length = 2 ∧
    hasError (runWorker params15 constScore6 cancelAfter3).events = false := by
  decide

/-- Witness for `c1_cancellation` at a concrete cancelled run. -/
theorem c1_cancellation_witness :
    params15.data ≠ [] ∧ MonoFlag cancelAfter3 ∧
    (∃ k, k + 1 < (runWorker params15 constScore6 cancelAfter3).reads ∧
      cancelAfter3 k = true) ∧
    (Ev.msg "Processing cancelled." ∈
        (runWorker params15 constScore6 cancelAfter3).events ∧
      hasSaved (runWorker params15 constScore6 cancelAfter3).events = false ∧
      hasComplete (runWorker params15 constScore6 cancelAfter3).events = false ∧
      hasError (runWorker params15 constScore6 cancelAfter3).events = false) := by
  have hmono : MonoFlag cancelAfter3 := by
    intro i j hij hi
    simp only [cancelAfter3, decide_eq_true_eq] at *
    omega
  refine ⟨by decide, hmono, ⟨3, by decide, by decide⟩, ?_⟩
  exact c1_cancellation params15 constScore6 cancelAfter3 (by decide) hmono
    ⟨3, by decide, by decide⟩
